import Mathlib

set_option linter.unusedVariables false
set_option maxRecDepth 4000
set_option linter.constructorNameAsVariable false

/-!
# Verification of the Sudoku generation/validation core

Shallow embedding of the Sudoku engine of this repository
(`domain/sudoku_game.py`, `utils/generator.py`, `utils/validator.py`,
`services/game_service.py`, `domain/models.py`) and proofs about it.

A board (`List[List[int]]` in the source) is a list of rows of naturals;
`0` (`EMPTY`) denotes an empty cell, `BOARD_SIZE = 9`.  Randomness
(`random.shuffle`, `random.randint`, `random.choice`) is modelled by
explicit oracle parameters: a run of a randomized Python function
corresponds to some choice of oracle.  In-place mutation becomes explicit
state passing, and raised exceptions become `Except` values.
-/

namespace Sudoku

/-- A Sudoku board: the Python `List[List[int]]`. -/
abbrev Board := List (List Nat)

/-- `board[row]` (out-of-range reads give `[]`, which never happens on
well-formed 9x9 boards). -/
def rowList (b : Board) (r : Nat) : List Nat := b.getD r []

/-- `board[row][col]`: single cell read (out-of-range reads give `0`). -/
def cell (b : Board) (r c : Nat) : Nat := (rowList b r).getD c 0

/-- `board[row][col] = v`: functional update of one cell. -/
def setCell (b : Board) (r c : Nat) (v : Nat) : Board :=
  b.set r ((rowList b r).set c v)

/-- The board is a 9x9 matrix (the invariant every Python board satisfies). -/
def wf9 (b : Board) : Prop :=
  b.length = 9 ∧ ∀ r : Fin 9, (rowList b r.val).length = 9

instance (b : Board) : Decidable (wf9 b) := by
  unfold wf9; infer_instance

/-- `[board[r][col] for r in range(9)]` from `is_safe_in_column`. -/
def colList (b : Board) (c : Nat) : List Nat :=
  (List.range 9).map (fun r => cell b r c)

/-- The nine values of the 3x3 box containing `(r, c)`, in the order the
Python box loops visit them (`box_row = (row // 3) * 3` etc.). -/
def boxList (b : Board) (r c : Nat) : List Nat :=
  (List.range 3).flatMap (fun i =>
    (List.range 3).map (fun j => cell b (r / 3 * 3 + i) (c / 3 * 3 + j)))

/-- `is_safe` from `domain/sudoku_game.py` (and the identical
`SudokuGenerator._is_safe` from `utils/generator.py`): `num` appears in
neither the row, the column, nor the 3x3 box of `(row, col)`. -/
def is_safe (b : Board) (r c n : Nat) : Prop :=
  n ∉ rowList b r ∧ n ∉ colList b c ∧ n ∉ boxList b r c

instance (b : Board) (r c n : Nat) : Decidable (is_safe b r c n) := by
  unfold is_safe; infer_instance

/-- `create_empty_board`: 9x9 of zeros. -/
def create_empty_board : Board := List.replicate 9 (List.replicate 9 0)

/-- The row-major scan for the first empty cell used by
`fill_solution_board`, `_fill_board_backtracking` and `_count_solutions`. -/
def firstEmpty (b : Board) : Option (Nat × Nat) :=
  (List.range 9).findSome? (fun r =>
    ((List.range 9).find? (fun c => cell b r c == 0)).map (fun c => (r, c)))

/-- A candidate oracle: the output of `random.shuffle(candidates)` at the
moment the filler reaches board `b` at cell `(r, c)`.  A run of the Python
filler corresponds to some oracle; faithful oracles return permutations of
`1..9`, and all theorems assume at most that their elements lie in
`[1, 9]`. -/
abbrev Oracle := Board → Nat → Nat → List Nat

/-- `fill_solution_board` from `domain/sudoku_game.py` (identical control
flow to `SudokuGenerator._fill_board_backtracking`): find the first empty
cell, try the oracle's candidates in order, place a safe candidate and
recurse, undoing on failure; `none` models `return False`.  `fuel` bounds
the recursion depth; 81 suffices for any 9x9 board (one frame per cell). -/
def fill_solution_board (oracle : Oracle) : Nat → Board → Option Board
  | 0, _ => none
  | fuel + 1, b =>
    match firstEmpty b with
    | none => some b
    | some (r, c) =>
      (oracle b r c).foldl
        (fun res n =>
          match res with
          | some b' => some b'
          | none =>
            if is_safe b r c n then fill_solution_board oracle fuel (setCell b r c n)
            else none)
        none

/-- The recursive `backtrack` helper of `SudokuGenerator._count_solutions`:
threads the running count (`count[0]`), returning immediately once the
count has reached `limit`; at a full board the count is incremented; at the
first empty cell each safe value `1..9` (natural order, no shuffling) is
tried.  `fuel` bounds depth as in `fill_solution_board`. -/
def countBacktrack (limit : Nat) : Nat → Board → Nat → Nat
  | 0, _, acc => acc
  | fuel + 1, b, acc =>
    if limit ≤ acc then acc
    else
      match firstEmpty b with
      | none => acc + 1
      | some (r, c) =>
        (List.range' 1 9).foldl
          (fun a n =>
            if is_safe b r c n then countBacktrack limit fuel (setCell b r c n) a
            else a)
          acc

/-- `SudokuGenerator._count_solutions(board, limit)`: the number of
solutions found by the bounded backtracking count, starting from count 0.
A fuel of 82 strictly exceeds the 81 possible empty cells, so the fuel
never runs out on a 9x9 board. -/
def count_solutions (b : Board) (limit : Nat) : Nat :=
  countBacktrack limit 82 b 0

/-- The exceptions of the Python code: `ValueError`,
`PuzzleGenerationError`, `ValidationError`, and the `AttributeError` the
runtime raises on access to a missing attribute. -/
inductive PyError where
  | valueError
  | puzzleGenerationError
  | validationError
  | attributeError
deriving Repr, DecidableEq

/-- The `while removed < cells_to_remove` loop of `remove_clues` in
`domain/sudoku_game.py`: each iteration draws a random cell (modelled by
the next element of `picks`); a non-empty cell is cleared unconditionally.
Returns the board and the final `removed` count; a Python run that
returns corresponds to a `picks` long enough that `removed` reaches
`cellsToRemove`. -/
def remove_clues_loop (cellsToRemove : Nat) :
    List (Nat × Nat) → Board → Nat → Board × Nat
  | [], b, removed => (b, removed)
  | (r, c) :: ps, b, removed =>
    if removed < cellsToRemove then
      if cell b r c ≠ 0 then
        remove_clues_loop cellsToRemove ps (setCell b r c 0) (removed + 1)
      else remove_clues_loop cellsToRemove ps b removed
    else (b, removed)

/-- `remove_clues(board, target_clues)` from `domain/sudoku_game.py`:
validates `17 <= target_clues <= 81` (else `ValueError`) and then clears
`81 - target_clues` randomly chosen cells with no uniqueness check. -/
def remove_clues (b : Board) (target : Nat) (picks : List (Nat × Nat)) :
    Except PyError (Board × Nat) :=
  if 17 ≤ target ∧ target ≤ 81 then
    .ok (remove_clues_loop (81 - target) picks b 0)
  else .error .valueError

/-- `generate_puzzle(clues)` from `domain/sudoku_game.py`: validate the
clue count, fill a solution board, copy it and remove clues.  `oracle`
models the shuffles of the filler and `picks` the random removal cells. -/
def generate_puzzle (oracle : Oracle) (picks : List (Nat × Nat)) (clues : Nat) :
    Except PyError (Board × Board) :=
  if 17 ≤ clues ∧ clues ≤ 81 then
    match fill_solution_board oracle 82 create_empty_board with
    | none => .error .puzzleGenerationError
    | some sol =>
      match remove_clues sol clues picks with
      | .error e => .error e
      | .ok (puz, _) => .ok (puz, sol)
  else .error .valueError

/-- `SudokuGenerator.ensure_unique_solution(puzzle)`: counts solutions on
a copy of the puzzle and reports whether there is exactly one. -/
def ensure_unique_solution (b : Board) : Prop := count_solutions b 2 = 1

instance (b : Board) : Decidable (ensure_unique_solution b) := by
  unfold ensure_unique_solution; infer_instance

/-- The `while removed < cells_to_remove and attempts < max_attempts` loop
of `SudokuGenerator._remove_clues_with_unique_solution`.  `picks attempts`
models the two `random.randint(0, 8)` draws of iteration `attempts`; the
fuel argument equals `max_attempts - attempts`, so fuel 0 is exactly the
`attempts < max_attempts` exit.  A cleared cell is kept unconditionally
when `target_clues <= 25` ("expert difficulty" comment in the source) and
otherwise only when the cleared board still has a unique solution, the
saved value being restored when it does not.  Returns the board and the
final `removed` count. -/
def sg_remove_loop (picks : Nat → Nat × Nat) (target cellsToRemove : Nat) :
    Nat → Board → Nat → Nat → Board × Nat
  | 0, b, removed, _ => (b, removed)
  | fuel + 1, b, removed, attempts =>
    if removed < cellsToRemove then
      let rc := picks attempts
      if cell b rc.1 rc.2 ≠ 0 then
        let cleared := setCell b rc.1 rc.2 0
        if target ≤ 25 then
          sg_remove_loop picks target cellsToRemove fuel cleared (removed + 1) (attempts + 1)
        else if ensure_unique_solution cleared then
          sg_remove_loop picks target cellsToRemove fuel cleared (removed + 1) (attempts + 1)
        else
          sg_remove_loop picks target cellsToRemove fuel b removed (attempts + 1)
      else sg_remove_loop picks target cellsToRemove fuel b removed (attempts + 1)
    else (b, removed)

/-- `SudokuGenerator._remove_clues_with_unique_solution(board, target_clues)`:
validate the target, then run the removal loop with
`max_attempts = cells_to_remove * 5`. -/
def sg_remove_clues (b : Board) (target : Nat) (picks : Nat → Nat × Nat) :
    Except PyError (Board × Nat) :=
  if 17 ≤ target ∧ target ≤ 81 then
    .ok (sg_remove_loop picks target (81 - target) ((81 - target) * 5) b 0 0)
  else .error .valueError

/-- Modelled from the spec: the difficulty table `DIFFICULTY_LEVELS` that
`utils/generator.py` imports from `config`, absent from the `config.py`
under `src/`.  The spec (and the generator's own docstring) fixes the
clue ranges: easy 40-45, medium 30-35, hard 25-28, expert 17-20. -/
def DIFFICULTY_LEVELS : List (String × (Nat × Nat)) :=
  [("easy", (40, 45)), ("medium", (30, 35)), ("hard", (25, 28)), ("expert", (17, 20))]

/-- `SudokuGenerator.generate_puzzle(difficulty)`: validate the difficulty
against `DIFFICULTY_LEVELS`, draw `target_clues` from the difficulty's
range (`random.randint(min_clues, max_clues)`, modelled by the `target`
parameter, constrained to the range in the theorems), fill a solution
board and remove clues while attempting to keep the solution unique. -/
def sg_generate_puzzle (oracle : Oracle) (picks : Nat → Nat × Nat)
    (target : Nat) (difficulty : String) : Except PyError (Board × Board) :=
  match DIFFICULTY_LEVELS.lookup difficulty with
  | none => .error .valueError
  | some _ =>
    match fill_solution_board oracle 82 create_empty_board with
    | none => .error .puzzleGenerationError
    | some sol =>
      match sg_remove_clues sol target picks with
      | .error e => .error e
      | .ok (puz, _) => .ok (puz, sol)

/-! ## Validator (`utils/validator.py`) -/

/-- `MoveValidationResult` dataclass. -/
structure MoveValidationResult where
  is_valid : Bool
  errors : List String
  conflicts : List (Nat × Nat)
  conflict_type : Option String
deriving Repr, DecidableEq

/-- The nine positions of the 3x3 box containing `(row, col)`, in the
order the box loops of the validator visit them. -/
def boxPairsOf (row col : Nat) : List (Nat × Nat) :=
  (List.range 3).flatMap (fun i =>
    (List.range 3).map (fun j => (row / 3 * 3 + i, col / 3 * 3 + j)))

/-- The fresh result record (`MoveValidationResult(is_valid=True,
errors=[])`). -/
def initResult : MoveValidationResult :=
  { is_valid := true, errors := [], conflicts := [], conflict_type := none }

/-- The row-conflict block of `is_valid_move`: on a hit, invalidate,
append the message, set `conflict_type = 'row'` (this block runs first,
so unconditionally) and record the first row index of `num`
(`board[row].index(num)`). -/
def rowCheck (b : Board) (row num : Nat) (res : MoveValidationResult) :
    MoveValidationResult :=
  if num ∈ rowList b row then
    { is_valid := false,
      errors := res.errors ++ [s!"Number {num} already exists in row {row}"],
      conflicts := res.conflicts ++ [(row, (rowList b row).findIdx (· == num))],
      conflict_type := some "row" }
  else res

/-- The column-conflict block of `is_valid_move`: on a hit, invalidate,
append the message, record the first column occurrence, and set
`conflict_type = 'column'` only if the result was still valid. -/
def colCheck (b : Board) (col num : Nat) (res : MoveValidationResult) :
    MoveValidationResult :=
  if num ∈ colList b col then
    { is_valid := false,
      errors := res.errors ++ [s!"Number {num} already exists in column {col}"],
      conflicts := res.conflicts ++ [((colList b col).findIdx (· == num), col)],
      conflict_type := if res.is_valid then some "column" else res.conflict_type }
  else res

/-- The 3x3-box loop of `is_valid_move`: every matching box cell is
appended to `conflicts` (the loop has no break), `conflict_type = 'box'`
is written only while the result is still valid. -/
def boxCheck (b : Board) (row col num : Nat) (res : MoveValidationResult) :
    MoveValidationResult :=
  (boxPairsOf row col).foldl
    (fun acc rc =>
      if cell b rc.1 rc.2 = num then
        { is_valid := false,
          errors := acc.errors ++
            [s!"Number {num} already exists in 3x3 box {row / 3 * 3 + col / 3}"],
          conflicts := acc.conflicts ++ [rc],
          conflict_type := if acc.is_valid then some "box" else acc.conflict_type }
      else acc)
    res

/-- `SudokuValidator.is_valid_move(board, row, col, num)`: bounds, value
and emptiness guards with early returns, then the three duplicate checks
run in sequence on a mutable result record; `conflict_type` is only
written when `result.is_valid` still holds (except the row check, which
runs first), while `errors` and `conflicts` always accumulate. -/
def is_valid_move (b : Board) (row col num : Nat) : MoveValidationResult :=
  if ¬(row < 9 ∧ col < 9) then
    { is_valid := false,
      errors := [s!"Invalid position: ({row}, {col}). Must be within 0-8."],
      conflicts := [], conflict_type := none }
  else if ¬(1 ≤ num ∧ num ≤ 9) then
    { is_valid := false,
      errors := [s!"Invalid number: {num}. Must be between 1 and 9."],
      conflicts := [], conflict_type := none }
  else if cell b row col ≠ 0 then
    let v := cell b row col
    { is_valid := false,
      errors := [s!"Cell ({row}, {col}) is not empty. Contains: {v}"],
      conflicts := [], conflict_type := none }
  else
    boxCheck b row col num (colCheck b col num (rowCheck b row num initResult))

/-- `ConflictInfo` dataclass; the Python dicts (insertion-ordered) become
association lists in insertion order, the `conflict_cells` set becomes a
duplicate-free list. -/
structure ConflictInfo where
  has_conflicts : Bool
  row_conflicts : List (Nat × List Nat)
  column_conflicts : List (Nat × List Nat)
  box_conflicts : List (Nat × List Nat)
  conflict_cells : List (Nat × Nat)
  total_conflicts : Nat
deriving Repr, DecidableEq

/-- The `if unit not in conflicts: conflicts[unit] = []` /
`if num not in conflicts[unit]: conflicts[unit].append(num)` idiom on an
insertion-ordered dict. -/
def dictAdd (d : List (Nat × List Nat)) (k v : Nat) : List (Nat × List Nat) :=
  match d with
  | [] => [(k, [v])]
  | (k', vs) :: rest =>
    if k' = k then (k', if v ∈ vs then vs else vs ++ [v]) :: rest
    else (k', vs) :: dictAdd rest k v

/-- `set.add` on a list kept duplicate-free. -/
def setAdd (s : List (Nat × Nat)) (x : Nat × Nat) : List (Nat × Nat) :=
  if x ∈ s then s else s ++ [x]

/-- Lexicographic order on positions: Python's `sorted` on 2-tuples. -/
def pairLe (x y : Nat × Nat) : Bool :=
  x.1 < y.1 || (x.1 = y.1 && x.2 ≤ y.2)

/-- Insertion sort implementing Python's `sorted(list(conflict_cells))`. -/
def insertPair (x : Nat × Nat) : List (Nat × Nat) → List (Nat × Nat)
  | [] => [x]
  | y :: ys => if pairLe x y then x :: y :: ys else y :: insertPair x ys

/-- See `insertPair`. -/
def sortPairs : List (Nat × Nat) → List (Nat × Nat)
  | [] => []
  | x :: xs => insertPair x (sortPairs xs)

/-- One row scan of `find_conflicts`: fold over the columns carrying the
`seen` dict (value to first column) plus the accumulated `row_conflicts`
and `conflict_cells`. -/
def rowScan (b : Board) (r : Nat)
    (st : List (Nat × List Nat) × List (Nat × Nat)) :
    List (Nat × List Nat) × List (Nat × Nat) :=
  let res := (List.range 9).foldl
    (fun (acc : List (Nat × Nat) × List (Nat × List Nat) × List (Nat × Nat)) c =>
      let (seen, rowConf, cells) := acc
      let num := cell b r c
      if num ≠ 0 then
        match seen.lookup num with
        | some c0 => (seen, dictAdd rowConf r num, setAdd (setAdd cells (r, c)) (r, c0))
        | none => (seen ++ [(num, c)], rowConf, cells)
      else acc)
    ([], st.1, st.2)
  (res.2.1, res.2.2)

/-- One column scan of `find_conflicts` (`seen` maps value to first row). -/
def colScan (b : Board) (c : Nat)
    (st : List (Nat × List Nat) × List (Nat × Nat)) :
    List (Nat × List Nat) × List (Nat × Nat) :=
  let res := (List.range 9).foldl
    (fun (acc : List (Nat × Nat) × List (Nat × List Nat) × List (Nat × Nat)) r =>
      let (seen, colConf, cells) := acc
      let num := cell b r c
      if num ≠ 0 then
        match seen.lookup num with
        | some r0 => (seen, dictAdd colConf c num, setAdd (setAdd cells (r, c)) (r0, c))
        | none => (seen ++ [(num, r)], colConf, cells)
      else acc)
    ([], st.1, st.2)
  (res.2.1, res.2.2)

/-- One 3x3 box scan of `find_conflicts` (`seen` maps value to first
position, encoded `9 * row + col`). -/
def boxScan (b : Board) (br bc : Nat)
    (st : List (Nat × List Nat) × List (Nat × Nat)) :
    List (Nat × List Nat) × List (Nat × Nat) :=
  let box_num := br / 3 * 3 + bc / 3
  let pairs := (List.range 3).flatMap (fun i =>
    (List.range 3).map (fun j => (br + i, bc + j)))
  let res := pairs.foldl
    (fun (acc : List (Nat × Nat) × List (Nat × List Nat) × List (Nat × Nat)) rc =>
      let (seen, boxConf, cells) := acc
      let num := cell b rc.1 rc.2
      if num ≠ 0 then
        match seen.lookup num with
        | some p0 => (seen, dictAdd boxConf box_num num,
            setAdd (setAdd cells rc) (p0 / 9, p0 % 9))
        | none => (seen ++ [(num, 9 * rc.1 + rc.2)], boxConf, cells)
      else acc)
    ([], st.1, st.2)
  (res.2.1, res.2.2)

/-- `SudokuValidator.find_conflicts(board)`: scan all rows, then all
columns, then all nine boxes, collecting per-unit duplicated values and
the global conflict-cell set, which is reported sorted. -/
def find_conflicts (b : Board) : ConflictInfo :=
  let rowRes := (List.range 9).foldl (fun st r => rowScan b r st) ([], [])
  let colRes := (List.range 9).foldl (fun st c => colScan b c st) ([], rowRes.2)
  let boxRes := ([0, 3, 6].flatMap (fun br => [0, 3, 6].map (fun bc => (br, bc)))).foldl
    (fun st p => boxScan b p.1 p.2 st) ([], colRes.2)
  let cells := sortPairs boxRes.2
  { has_conflicts := decide (boxRes.2 ≠ []),
    row_conflicts := rowRes.1,
    column_conflicts := colRes.1,
    box_conflicts := boxRes.1,
    conflict_cells := cells,
    total_conflicts := cells.length }

/-! ## Game service (`services/game_service.py`, `domain/models.py`) -/

/-- `SudokuBoard` dataclass from `domain/models.py` (the 9x9 validation of
`__post_init__` is the `wf9` invariant). -/
structure SudokuBoardM where
  grid : Board
deriving Repr, DecidableEq

/-- `GameState` dataclass from `domain/models.py` — the type
`services/game_service.py` imports and stores in the repository.  Its
fields are exactly `game_id`, `puzzle`, `solution`, `current_board`,
`difficulty`, `moves` plus two timestamps (omitted here; no claim concerns
them).  It has neither a `locked_cells` nor a `hints_used` field. -/
structure GameState where
  game_id : String
  puzzle : SudokuBoardM
  solution : SudokuBoardM
  current_board : SudokuBoardM
  difficulty : String
  moves : Nat
deriving Repr, DecidableEq

/-- The empty-cell comprehension of `GameService.get_hint`. -/
def emptyCellsOf (b : Board) : List (Nat × Nat) :=
  (List.range 9).flatMap (fun r =>
    (List.range 9).filterMap (fun c => if cell b r c = 0 then some (r, c) else none))

/-- `GameService.get_hint(game_id, current_board)` after a successful
repository load of `gs` (a `domain.models.GameState`).  `k` models
`random.choice` (the chosen index into the empty-cell list).  The method
computes the empty cells (raising `ValidationError` when none remain),
picks one, reads the solution value and writes it into both boards; it
then executes `game_state.locked_cells.append((row, col))` — but
`domain.models.GameState` has no attribute `locked_cells` (that field only
exists on the unrelated `models/game_state.py` class), so the Python
runtime raises `AttributeError` at that line, before `hints_used` is ever
touched and before anything is returned. -/
def get_hint (gs : GameState) (current : Board) (k : Nat) :
    Except PyError ((Nat × Nat) × Nat × GameState × Board) :=
  let empty_cells := emptyCellsOf current
  if empty_cells = [] then .error .validationError
  else
    let rc := empty_cells.getD (k % empty_cells.length) (0, 0)
    let solution_value := cell gs.solution.grid rc.1 rc.2
    let current2 := setCell current rc.1 rc.2 solution_value
    let gs2 := { gs with
      current_board := ⟨setCell gs.current_board.grid rc.1 rc.2 solution_value⟩ }
    .error .attributeError

/-! ## Mathematical model: solution sets

To state what the solution counter counts we need the honest notion of a
solution of a partial board: a full assignment of `1..9` to all 81 cells
that agrees with the board's clues and satisfies the Sudoku constraint. -/

/-- A full assignment: cell `(r, c)` holds value `(f r c).val + 1`. -/
abbrev SGrid := Fin 9 → Fin 9 → Fin 9

/-- The `1..9` value an assignment puts at `(r, c)`. -/
def fcell (f : SGrid) (r c : Fin 9) : Nat := (f r c).val + 1

/-- Two positions share a row, a column, or a 3x3 box. -/
def sameUnit (r₁ c₁ r₂ c₂ : Nat) : Prop :=
  r₁ = r₂ ∨ c₁ = c₂ ∨ (r₁ / 3 = r₂ / 3 ∧ c₁ / 3 = c₂ / 3)

instance (r₁ c₁ r₂ c₂ : Nat) : Decidable (sameUnit r₁ c₁ r₂ c₂) := by
  unfold sameUnit; infer_instance

/-- The assignment agrees with every clue (non-zero cell) of the board. -/
def extendsGrid (f : SGrid) (b : Board) : Prop :=
  ∀ r c : Fin 9, cell b r.val c.val ≠ 0 → fcell f r c = cell b r.val c.val

instance (f : SGrid) (b : Board) : Decidable (extendsGrid f b) := by
  unfold extendsGrid; infer_instance

/-- The Sudoku constraint: distinct cells of one unit hold distinct
values. -/
def validGrid (f : SGrid) : Prop :=
  ∀ r₁ c₁ r₂ c₂ : Fin 9, sameUnit r₁.val c₁.val r₂.val c₂.val →
    f r₁ c₁ = f r₂ c₂ → r₁ = r₂ ∧ c₁ = c₂

instance (f : SGrid) : Decidable (validGrid f) := by
  unfold validGrid; infer_instance

/-- All solutions of a board. -/
def solutionSet (b : Board) : Finset SGrid :=
  Finset.univ.filter (fun f => extendsGrid f b ∧ validGrid f)

/-- The true number of solutions of a board. -/
def numSolutions (b : Board) : Nat := (solutionSet b).card

/-- The board's clues are consistent: values lie in `[0, 9]` and no two
distinct cells of a unit hold the same non-zero value. -/
def consistent (b : Board) : Prop :=
  (∀ r c : Fin 9, cell b r.val c.val ≤ 9) ∧
  ∀ r₁ c₁ r₂ c₂ : Fin 9, sameUnit r₁.val c₁.val r₂.val c₂.val →
    cell b r₁.val c₁.val ≠ 0 → cell b r₁.val c₁.val = cell b r₂.val c₂.val →
    r₁ = r₂ ∧ c₁ = c₂

instance (b : Board) : Decidable (consistent b) := by
  unfold consistent; infer_instance

/-- Every cell is filled. -/
def complete (b : Board) : Prop := ∀ r c : Fin 9, cell b r.val c.val ≠ 0

instance (b : Board) : Decidable (complete b) := by
  unfold complete; infer_instance

/-- The number of empty cells. -/
def emptyCount (b : Board) : Nat :=
  (Finset.univ.filter (fun rc : Fin 9 × Fin 9 => cell b rc.1.val rc.2.val = 0)).card

/-! ## Basic board lemmas -/

theorem rowList_length {b : Board} (h : wf9 b) {r : Nat} (hr : r < 9) :
    (rowList b r).length = 9 := h.2 ⟨r, hr⟩

theorem rowList_setCell_ne {b : Board} {r r' c v : Nat} (hne : r ≠ r') :
    rowList (setCell b r c v) r' = rowList b r' := by
  unfold rowList setCell
  simp [List.getD_eq_getElem?_getD, List.getElem?_set_ne hne]

theorem rowList_setCell_self {b : Board} (h : wf9 b) {r c v : Nat} (hr : r < 9) :
    rowList (setCell b r c v) r = (rowList b r).set c v := by
  unfold rowList setCell
  have hlen : r < b.length := by rw [h.1]; exact hr
  simp [List.getD_eq_getElem?_getD, List.getElem?_set_self, hlen, rowList]

theorem wf9_setCell {b : Board} (h : wf9 b) (r c v : Nat) :
    wf9 (setCell b r c v) := by
  refine ⟨by simpa [setCell] using h.1, fun r' => ?_⟩
  by_cases hrr : r = r'.val
  · subst hrr
    rw [rowList_setCell_self h r'.isLt]
    simpa using rowList_length h r'.isLt
  · rw [rowList_setCell_ne hrr]; exact h.2 r'

theorem cell_setCell_self {b : Board} (h : wf9 b) {r c : Nat} (v : Nat)
    (hr : r < 9) (hc : c < 9) : cell (setCell b r c v) r c = v := by
  unfold cell
  rw [rowList_setCell_self h hr]
  have hlen : c < (rowList b r).length := by rw [rowList_length h hr]; exact hc
  simp [List.getD_eq_getElem?_getD, List.getElem?_set_self, hlen]

theorem cell_setCell_ne {b : Board} {r c r' c' : Nat} (v : Nat)
    (hne : r ≠ r' ∨ c ≠ c') : cell (setCell b r c v) r' c' = cell b r' c' := by
  rcases hne with hne | hne
  · unfold cell; rw [rowList_setCell_ne hne]
  · by_cases hrr : r = r'
    · subst hrr
      unfold cell setCell rowList
      by_cases hlen : r < b.length
      · simp only [List.getD_eq_getElem?_getD, List.getElem?_set_self, hlen,
          if_pos, Option.getD_some]
        simp [List.getD_eq_getElem?_getD, List.getElem?_set_ne hne]
      · rw [List.set_eq_of_length_le (by omega)]
    · unfold cell; rw [rowList_setCell_ne hrr]

/-- Reading a cell with both indices in range, as a list element. -/
theorem cell_eq_get {b : Board} (h : wf9 b) {r c : Nat} (hr : r < 9)
    (hc : c < 9) :
    cell b r c = (rowList b r).get ⟨c, by rw [rowList_length h hr]; exact hc⟩ := by
  unfold cell
  rw [List.getD_eq_getElem _ _ (by rw [rowList_length h hr]; exact hc)]
  simp

theorem rowList_of_ge {b : Board} (h : wf9 b) {r : Nat} (hr : 9 ≤ r) :
    rowList b r = [] := by
  unfold rowList
  rw [List.getD_eq_getElem?_getD, List.getElem?_eq_none (by rw [h.1]; omega)]
  rfl

theorem cell_out_of_range {b : Board} (h : wf9 b) {r c : Nat}
    (hrc : 9 ≤ r ∨ 9 ≤ c) : cell b r c = 0 := by
  rcases hrc with hr | hc
  · unfold cell
    rw [rowList_of_ge h hr]
    rfl
  · rcases Nat.lt_or_ge r 9 with hr | hr
    · unfold cell
      rw [List.getD_eq_getElem?_getD,
        List.getElem?_eq_none (by rw [rowList_length h hr]; omega)]
      rfl
    · unfold cell
      rw [rowList_of_ge h hr]
      rfl

/-! ## `firstEmpty` lemmas -/

theorem firstEmpty_some {b : Board} {r c : Nat}
    (h : firstEmpty b = some (r, c)) : r < 9 ∧ c < 9 ∧ cell b r c = 0 := by
  unfold firstEmpty at h
  obtain ⟨r', hr', hf⟩ := List.exists_of_findSome?_eq_some h
  rcases hfind : (List.range 9).find? (fun c => cell b r' c == 0) with _ | c'
  · rw [hfind] at hf
    exact absurd hf (by simp)
  · rw [hfind] at hf
    simp only [Option.map_some'] at hf
    have hrr : r' = r ∧ c' = c := by
      constructor <;> [exact congrArg Prod.fst (Option.some.inj hf);
        exact congrArg Prod.snd (Option.some.inj hf)]
    obtain ⟨rfl, rfl⟩ := hrr
    have hc' := List.find?_some hfind
    have hcmem := List.mem_of_find?_eq_some hfind
    simp only [beq_iff_eq] at hc'
    exact ⟨List.mem_range.mp hr', List.mem_range.mp hcmem, hc'⟩

theorem firstEmpty_none {b : Board} (h : firstEmpty b = none) : complete b := by
  unfold firstEmpty at h
  rw [List.findSome?_eq_none_iff] at h
  intro r c hc
  have := h r.val (List.mem_range.mpr r.isLt)
  rcases hfind : (List.range 9).find? (fun c => cell b r.val c == 0) with _ | c'
  · rw [List.find?_eq_none] at hfind
    exact absurd (by simpa using hc) (hfind c.val (List.mem_range.mpr c.isLt))
  · rw [hfind] at this; simp at this

theorem firstEmpty_of_complete {b : Board} (h : complete b) :
    firstEmpty b = none := by
  unfold firstEmpty
  rw [List.findSome?_eq_none_iff]
  intro r hr
  rcases hfind : (List.range 9).find? (fun c => cell b r c == 0) with _ | c'
  · rfl
  · exfalso
    have hp := List.find?_some hfind
    have hcmem := List.mem_range.mp (List.mem_of_find?_eq_some hfind)
    have hrmem := List.mem_range.mp hr
    simp only [beq_iff_eq] at hp
    exact h ⟨r, hrmem⟩ ⟨c', hcmem⟩ hp

/-! ## Membership bridges between unit lists and cells -/

theorem mem_rowList {b : Board} (h : wf9 b) {r : Nat} (hr : r < 9) {n : Nat} :
    n ∈ rowList b r ↔ ∃ c : Fin 9, cell b r c.val = n := by
  constructor
  · intro hn
    obtain ⟨⟨c, hc⟩, hget⟩ := List.mem_iff_get.mp hn
    rw [rowList_length h hr] at hc
    refine ⟨⟨c, hc⟩, ?_⟩
    rw [cell_eq_get h hr hc]
    exact hget
  · rintro ⟨c, rfl⟩
    rw [cell_eq_get h hr c.isLt]
    exact List.get_mem _ _ _

theorem mem_colList {b : Board} {c : Nat} {n : Nat} :
    n ∈ colList b c ↔ ∃ r : Fin 9, cell b r.val c = n := by
  unfold colList
  simp only [List.mem_map, List.mem_range]
  constructor
  · rintro ⟨r, hr, rfl⟩; exact ⟨⟨r, hr⟩, rfl⟩
  · rintro ⟨r, rfl⟩; exact ⟨r.val, r.isLt, rfl⟩

theorem mem_boxList {b : Board} {r c : Nat} {n : Nat} :
    n ∈ boxList b r c ↔
      ∃ i j : Fin 3, cell b (r / 3 * 3 + i.val) (c / 3 * 3 + j.val) = n := by
  unfold boxList
  simp only [List.mem_flatMap, List.mem_map, List.mem_range]
  constructor
  · rintro ⟨i, hi, j, hj, rfl⟩; exact ⟨⟨i, hi⟩, ⟨j, hj⟩, rfl⟩
  · rintro ⟨i, j, rfl⟩; exact ⟨i.val, i.isLt, j.val, j.isLt, rfl⟩

/-- A failed safety check names a same-unit cell already holding `n`. -/
theorem not_is_safe_iff {b : Board} {r c n : Nat} :
    ¬ is_safe b r c n ↔
      n ∈ rowList b r ∨ n ∈ colList b c ∨ n ∈ boxList b r c := by
  unfold is_safe
  tauto

/-- Any same-unit occupant of value `n` defeats the safety check. -/
theorem not_is_safe_of_sameUnit {b : Board} (h : wf9 b) {r c : Nat}
    (hr : r < 9) (hc : c < 9) {r' c' : Fin 9} {n : Nat}
    (hu : sameUnit r c r'.val c'.val) (hv : cell b r'.val c'.val = n) :
    ¬ is_safe b r c n := by
  rw [not_is_safe_iff]
  rcases hu with hrow | hcol | hbox
  · left
    rw [mem_rowList h hr]
    exact ⟨c', by rw [← hrow] at hv; exact hv⟩
  · right; left
    rw [mem_colList]
    exact ⟨r', by rw [← hcol] at hv; exact hv⟩
  · right; right
    rw [mem_boxList]
    obtain ⟨hb1, hb2⟩ := hbox
    refine ⟨⟨r'.val % 3, Nat.mod_lt _ (by omega)⟩, ⟨c'.val % 3, Nat.mod_lt _ (by omega)⟩, ?_⟩
    simp only [Fin.val_mk]
    have h1 : r / 3 * 3 + r'.val % 3 = r'.val := by omega
    have h2 : c / 3 * 3 + c'.val % 3 = c'.val := by omega
    rw [h1, h2]
    exact hv

/-- Conversely, a failed safety check for an empty in-range cell produces
a distinct same-unit cell holding `n`. -/
theorem exists_sameUnit_of_not_is_safe {b : Board} (h : wf9 b) {r c n : Nat}
    (hr : r < 9) (hc : c < 9) (hempty : cell b r c = 0) (hn : n ≠ 0)
    (hsafe : ¬ is_safe b r c n) :
    ∃ r' c' : Fin 9, sameUnit r c r'.val c'.val ∧ cell b r'.val c'.val = n ∧
      (r'.val ≠ r ∨ c'.val ≠ c) := by
  rw [not_is_safe_iff] at hsafe
  have hne : ∀ r' c' : Fin 9, cell b r'.val c'.val = n →
      r'.val ≠ r ∨ c'.val ≠ c := by
    intro r' c' hv
    by_contra hcon
    push_neg at hcon
    rw [hcon.1, hcon.2, hempty] at hv
    exact hn hv.symm
  rcases hsafe with hrow | hcol | hbox
  · obtain ⟨c', hc'⟩ := (mem_rowList h hr).mp hrow
    exact ⟨⟨r, hr⟩, c', Or.inl rfl, hc', hne _ _ hc'⟩
  · obtain ⟨r', hr'⟩ := mem_colList.mp hcol
    exact ⟨r', ⟨c, hc⟩, Or.inr (Or.inl rfl), hr', hne _ _ hr'⟩
  · obtain ⟨i, j, hij⟩ := mem_boxList.mp hbox
    have hi := i.isLt
    have hj := j.isLt
    refine ⟨⟨r / 3 * 3 + i.val, by omega⟩, ⟨c / 3 * 3 + j.val, by omega⟩, ?_, ?_, ?_⟩
    · refine Or.inr (Or.inr ⟨?_, ?_⟩) <;> simp only [Fin.val_mk] <;> omega
    · simpa only [Fin.val_mk] using hij
    · simpa only [Fin.val_mk] using
        hne ⟨r / 3 * 3 + i.val, by omega⟩ ⟨c / 3 * 3 + j.val, by omega⟩
          (by simpa only [Fin.val_mk] using hij)

theorem sameUnit_symm {r₁ c₁ r₂ c₂ : Nat} (h : sameUnit r₁ c₁ r₂ c₂) :
    sameUnit r₂ c₂ r₁ c₁ := by
  unfold sameUnit at *
  tauto

/-! ## Consistency is preserved by safe placements -/

theorem consistent_setCell {b : Board} (hw : wf9 b) (hcons : consistent b)
    {r c n : Nat} (hr : r < 9) (hc : c < 9) (hempty : cell b r c = 0)
    (hn1 : 1 ≤ n) (hn9 : n ≤ 9) (hsafe : is_safe b r c n) :
    consistent (setCell b r c n) := by
  constructor
  · intro r' c'
    by_cases heq : r = r'.val ∧ c = c'.val
    · rw [← heq.1, ← heq.2, cell_setCell_self hw n hr hc]
      exact hn9
    · rw [cell_setCell_ne n (by tauto)]
      exact hcons.1 r' c'
  · intro r₁ c₁ r₂ c₂ hunit hne0 heqv
    by_cases h1 : r = r₁.val ∧ c = c₁.val
    · by_cases h2 : r = r₂.val ∧ c = c₂.val
      · refine ⟨Fin.ext ?_, Fin.ext ?_⟩ <;> omega
      · exfalso
        rw [← h1.1, ← h1.2, cell_setCell_self hw n hr hc] at heqv
        rw [cell_setCell_ne n (by tauto)] at heqv
        have hu : sameUnit r c r₂.val c₂.val := by
          rw [h1.1, h1.2]; exact hunit
        exact not_is_safe_of_sameUnit hw hr hc hu heqv.symm hsafe
    · by_cases h2 : r = r₂.val ∧ c = c₂.val
      · exfalso
        rw [cell_setCell_ne n (by tauto)] at hne0 heqv
        rw [← h2.1, ← h2.2, cell_setCell_self hw n hr hc] at heqv
        have hu : sameUnit r c r₁.val c₁.val := by
          rw [h2.1, h2.2]; exact sameUnit_symm hunit
        exact not_is_safe_of_sameUnit hw hr hc hu heqv hsafe
      · rw [cell_setCell_ne n (by tauto)] at hne0 heqv
        rw [cell_setCell_ne n (by tauto)] at heqv
        exact hcons.2 r₁ c₁ r₂ c₂ hunit hne0 heqv

/-! ## Empty-cell counting -/

theorem emptyCount_setCell {b : Board} (hw : wf9 b) {r c n : Nat}
    (hr : r < 9) (hc : c < 9) (hempty : cell b r c = 0) (hn : n ≠ 0) :
    emptyCount b = emptyCount (setCell b r c n) + 1 := by
  unfold emptyCount
  set p : Fin 9 × Fin 9 := (⟨r, hr⟩, ⟨c, hc⟩) with hp
  have hmem : p ∈ Finset.univ.filter
      (fun rc : Fin 9 × Fin 9 => cell b rc.1.val rc.2.val = 0) := by
    simp [hp, hempty]
  have hset : Finset.univ.filter
      (fun rc : Fin 9 × Fin 9 => cell (setCell b r c n) rc.1.val rc.2.val = 0) =
      (Finset.univ.filter
        (fun rc : Fin 9 × Fin 9 => cell b rc.1.val rc.2.val = 0)).erase p := by
    ext x
    simp only [Finset.mem_filter, Finset.mem_erase, Finset.mem_univ, true_and,
      and_true]
    by_cases hx : r = x.1.val ∧ c = x.2.val
    · rw [← hx.1, ← hx.2, cell_setCell_self hw n hr hc]
      constructor
      · intro h0; exact absurd h0 hn
      · intro h0
        exfalso
        apply h0.1
        rw [hp]
        refine Prod.ext ?_ ?_ <;> apply Fin.ext <;> simp [hx.1, hx.2]
    · rw [cell_setCell_ne n (by tauto)]
      constructor
      · intro h0
        refine ⟨?_, h0⟩
        intro hxp
        rw [hxp, hp] at hx
        simp at hx
      · intro h0; exact h0.2
  rw [hset, Finset.card_erase_of_mem hmem]
  have := Finset.card_pos.mpr ⟨p, hmem⟩
  omega

theorem emptyCount_le (b : Board) : emptyCount b ≤ 81 := by
  unfold emptyCount
  calc (Finset.univ.filter _).card
      ≤ (Finset.univ : Finset (Fin 9 × Fin 9)).card := Finset.card_filter_le _ _
    _ = 81 := by simp

/-- Non-zero cell count (the `sum(1 for row in puzzle for cell in row if
cell != EMPTY)` of the test suite), as the complement of `emptyCount`. -/
def nonZeroCount (b : Board) : Nat :=
  (Finset.univ.filter (fun rc : Fin 9 × Fin 9 => ¬ cell b rc.1.val rc.2.val = 0)).card

theorem emptyCount_add_nonZeroCount (b : Board) :
    emptyCount b + nonZeroCount b = 81 := by
  unfold nonZeroCount emptyCount
  rw [Finset.filter_card_add_filter_neg_card_eq_card]
  simp

theorem nonZeroCount_of_complete {b : Board} (h : complete b) :
    nonZeroCount b = 81 := by
  unfold nonZeroCount
  have hall : ∀ x : Fin 9 × Fin 9, x ∈ Finset.univ →
      ¬ cell b x.1.val x.2.val = 0 := fun x _ => h x.1 x.2
  rw [Finset.filter_true_of_mem hall]
  simp

/-! ## The solution set of a board -/

/-- The assignment read off a complete board (cells assumed in `[1, 9]`;
the `% 9` keeps the definition total). -/
def gridOf (b : Board) : SGrid :=
  fun r c => ⟨(cell b r.val c.val - 1) % 9, Nat.mod_lt _ (by omega)⟩

theorem fcell_gridOf {b : Board} {r c : Fin 9}
    (h1 : 1 ≤ cell b r.val c.val) (h9 : cell b r.val c.val ≤ 9) :
    fcell (gridOf b) r c = cell b r.val c.val := by
  unfold fcell gridOf
  simp only [Fin.val_mk]
  omega

/-- A complete consistent board has itself as unique solution. -/
theorem solutionSet_complete {b : Board} (hcons : consistent b)
    (hcomp : complete b) : solutionSet b = {gridOf b} := by
  ext f
  simp only [solutionSet, Finset.mem_filter, Finset.mem_univ, true_and,
    Finset.mem_singleton]
  constructor
  · rintro ⟨hext, hvalid⟩
    funext r c
    have hne := hcomp r c
    have := hext r c hne
    unfold fcell at this
    apply Fin.ext
    unfold gridOf
    simp only [Fin.val_mk]
    omega
  · rintro rfl
    refine ⟨fun r c hne => fcell_gridOf ?_ ?_, ?_⟩
    · omega
    · exact hcons.1 r c
    · intro r₁ c₁ r₂ c₂ hunit heq
      have hv₁ : 1 ≤ cell b r₁.val c₁.val := by
        have := hcomp r₁ c₁; omega
      have hv₂ : 1 ≤ cell b r₂.val c₂.val := by
        have := hcomp r₂ c₂; omega
      have h9₁ := hcons.1 r₁ c₁
      have h9₂ := hcons.1 r₂ c₂
      have heqv : cell b r₁.val c₁.val = cell b r₂.val c₂.val := by
        have := congrArg Fin.val heq
        unfold gridOf at this
        simp only [Fin.val_mk] at this
        omega
      exact hcons.2 r₁ c₁ r₂ c₂ hunit (by omega) heqv

theorem numSolutions_complete {b : Board} (hcons : consistent b)
    (hcomp : complete b) : numSolutions b = 1 := by
  unfold numSolutions
  rw [solutionSet_complete hcons hcomp]
  exact Finset.card_singleton _

/-- Setting an empty cell refines the solution set to the fiber of the
chosen value. -/
theorem solutionSet_setCell {b : Board} (hw : wf9 b) {r c : Fin 9}
    (hempty : cell b r.val c.val = 0) {n : Nat} (hn1 : 1 ≤ n) (hn9 : n ≤ 9) :
    solutionSet (setCell b r.val c.val n) =
      (solutionSet b).filter (fun f => fcell f r c = n) := by
  ext f
  simp only [solutionSet, Finset.mem_filter, Finset.mem_univ, true_and]
  have hkey : extendsGrid f (setCell b r.val c.val n) ↔
      (extendsGrid f b ∧ fcell f r c = n) := by
    constructor
    · intro hext
      constructor
      · intro r' c' hne
        have hnep : r.val ≠ r'.val ∨ c.val ≠ c'.val := by
          by_contra hcon
          push_neg at hcon
          rw [← hcon.1, ← hcon.2] at hne
          exact hne hempty
        have := hext r' c' (by rw [cell_setCell_ne n (by tauto)]; exact hne)
        rw [cell_setCell_ne n (by tauto)] at this
        exact this
      · have := hext r c (by
          rw [cell_setCell_self hw n r.isLt c.isLt]; omega)
        rw [cell_setCell_self hw n r.isLt c.isLt] at this
        exact this
    · rintro ⟨hext, hfc⟩
      intro r' c' hne
      by_cases heq : r.val = r'.val ∧ c.val = c'.val
      · have hr' : r' = r := Fin.ext heq.1.symm
        have hc' : c' = c := Fin.ext heq.2.symm
        rw [hr', hc', cell_setCell_self hw n r.isLt c.isLt]
        exact hfc
      · rw [cell_setCell_ne n (by tauto)] at hne ⊢
        exact hext r' c' hne
  tauto

/-- An unsafe value has no solutions at all. -/
theorem solutionSet_setCell_blocked {b : Board} (hw : wf9 b) {r c : Fin 9}
    (hempty : cell b r.val c.val = 0) {n : Nat} (hn1 : 1 ≤ n) (hn9 : n ≤ 9)
    (hsafe : ¬ is_safe b r.val c.val n) :
    solutionSet (setCell b r.val c.val n) = ∅ := by
  rw [Finset.eq_empty_iff_forall_not_mem]
  intro f hf
  rw [solutionSet_setCell hw hempty hn1 hn9, Finset.mem_filter] at hf
  obtain ⟨hsol, hfc⟩ := hf
  rw [solutionSet, Finset.mem_filter] at hsol
  obtain ⟨-, hext, hvalid⟩ := hsol
  obtain ⟨r', c', hunit, hval, hne⟩ :=
    exists_sameUnit_of_not_is_safe hw r.isLt c.isLt hempty (by omega) hsafe
  have hfc' : fcell f r' c' = n := by
    rw [hext r' c' (by rw [hval]; omega), hval]
  have hff : f r c = f r' c' := by
    apply Fin.ext
    unfold fcell at hfc hfc'
    omega
  obtain ⟨hre, hce⟩ := hvalid r c r' c' hunit hff
  rcases hne with hne | hne
  · exact hne (by rw [← hre])
  · exact hne (by rw [← hce])

theorem fcell_eq_iff {f : SGrid} {r c : Fin 9} {v : Fin 9} :
    fcell f r c = v.val + 1 ↔ f r c = v := by
  unfold fcell
  constructor
  · intro h
    exact Fin.ext (Nat.succ_injective h)
  · intro h
    rw [h]

/-- Partitioning the solutions of a board by the value at its first empty
cell. -/
theorem numSolutions_decompose {b : Board} (hw : wf9 b) {r c : Fin 9}
    (hempty : cell b r.val c.val = 0) :
    numSolutions b =
      ∑ v : Fin 9, numSolutions (setCell b r.val c.val (v.val + 1)) := by
  unfold numSolutions
  have hfib := Finset.card_eq_sum_card_fiberwise
    (s := solutionSet b) (t := (Finset.univ : Finset (Fin 9)))
    (f := fun f : SGrid => f r c) (fun _ _ => Finset.mem_univ _)
  rw [hfib]
  refine Finset.sum_congr rfl ?_
  intro v hv0
  have h1 : 1 ≤ v.val + 1 := Nat.le_add_left 1 v.val
  have h9 : v.val + 1 ≤ 9 := v.isLt
  have hss := solutionSet_setCell (n := v.val + 1) hw hempty h1 h9
  have hfe : (solutionSet b).filter (fun f => f r c = v) =
      (solutionSet b).filter (fun f => fcell f r c = v.val + 1) := by
    ext f
    simp only [Finset.mem_filter, fcell_eq_iff]
  rw [hss, hfe]

/-! ## Correctness of the bounded solution counter -/

theorem min_add_min (x s L : Nat) : min (min x L + s) L = min (x + s) L := by
  omega

theorem eq_min_self_add (x L n : Nat) (h : x = L) : x = min (x + n) L := by
  omega

theorem succ_eq_min (x L n : Nat) (h : x < L) (hn : n = 1) :
    x + 1 = min (x + n) L := by
  omega

/-- The candidate fold of `countBacktrack` computes the capped sum of the
per-candidate solution counts. -/
theorem countFold {limit fuel : Nat} {b : Board} {r c : Nat}
    (hw : wf9 b) (hcons : consistent b) (hr : r < 9) (hc : c < 9)
    (hempty : cell b r c = 0) (hec : emptyCount b ≤ fuel)
    (ih : ∀ b' acc', wf9 b' → consistent b' → emptyCount b' < fuel →
      acc' ≤ limit →
      countBacktrack limit fuel b' acc' = min (acc' + numSolutions b') limit) :
    ∀ ns : List Nat, (∀ n ∈ ns, 1 ≤ n ∧ n ≤ 9) → ∀ acc, acc ≤ limit →
      ns.foldl (fun a n =>
          if is_safe b r c n then countBacktrack limit fuel (setCell b r c n) a
          else a) acc
        = min (acc + (ns.map (fun n =>
            if is_safe b r c n then numSolutions (setCell b r c n) else 0)).sum)
            limit := by
  intro ns
  induction ns with
  | nil =>
    intro _ acc hacc
    simp only [List.foldl_nil, List.map_nil, List.sum_nil, Nat.add_zero]
    omega
  | cons n ns ihlist =>
    intro hbounds acc hacc
    have hn := hbounds n (List.mem_cons_self n ns)
    have hrest : ∀ m ∈ ns, 1 ≤ m ∧ m ≤ 9 :=
      fun m hm => hbounds m (List.mem_cons_of_mem n hm)
    simp only [List.foldl_cons, List.map_cons, List.sum_cons]
    by_cases hsafe : is_safe b r c n
    · rw [if_pos hsafe, if_pos hsafe]
      have hwn := wf9_setCell hw r c n
      have hconsn := consistent_setCell hw hcons hr hc hempty hn.1 hn.2 hsafe
      have hecn : emptyCount (setCell b r c n) < fuel := by
        have := emptyCount_setCell hw hr hc hempty (by omega : n ≠ 0)
        omega
      rw [ih (setCell b r c n) acc hwn hconsn hecn hacc]
      rw [ihlist hrest _ (Nat.min_le_right _ _)]
      rw [min_add_min, Nat.add_assoc]
    · rw [if_neg hsafe, if_neg hsafe]
      rw [ihlist hrest acc hacc, Nat.zero_add]

/-- The guarded candidate sum over `1..9` equals the plain sum when the
guard can only drop zero terms. -/
theorem guarded_sum_eq {b : Board} {r c : Nat} (g : Nat → Nat)
    (hg : ∀ n, 1 ≤ n → n ≤ 9 → ¬ is_safe b r c n → g n = 0) :
    ((List.range' 1 9).map (fun n => if is_safe b r c n then g n else 0)).sum
      = ∑ v : Fin 9, g (v.val + 1) := by
  have hterm : ∀ n, 1 ≤ n → n ≤ 9 →
      (if is_safe b r c n then g n else 0) = g n := by
    intro n h1 h9
    by_cases hsafe : is_safe b r c n
    · rw [if_pos hsafe]
    · rw [if_neg hsafe, hg n h1 h9 hsafe]
  simp only [List.range', List.map_cons, List.map_nil, List.sum_cons,
    List.sum_nil]
  rw [hterm 1 (by omega) (by omega), hterm 2 (by omega) (by omega),
    hterm 3 (by omega) (by omega), hterm 4 (by omega) (by omega),
    hterm 5 (by omega) (by omega), hterm 6 (by omega) (by omega),
    hterm 7 (by omega) (by omega), hterm 8 (by omega) (by omega),
    hterm 9 (by omega) (by omega)]
  simp only [Fin.sum_univ_succ, Fin.val_zero, Fin.val_succ]
  norm_num

/-- Main counter invariant: with enough fuel, the backtracking counter
started at `acc ≤ limit` computes `min (acc + numSolutions b) limit`. -/
theorem countBacktrack_correct {limit : Nat} :
    ∀ fuel b acc, wf9 b → consistent b → emptyCount b < fuel → acc ≤ limit →
      countBacktrack limit fuel b acc = min (acc + numSolutions b) limit := by
  intro fuel
  induction fuel with
  | zero =>
    intro b acc _ _ hec _
    exact absurd hec (Nat.not_lt_zero _)
  | succ fuel ih =>
    intro b acc hw hcons hec hacc
    by_cases hlim : limit ≤ acc
    · rw [countBacktrack, if_pos hlim]
      exact eq_min_self_add acc limit _ (Nat.le_antisymm hacc hlim)
    · cases hfe : firstEmpty b with
      | none =>
        simp only [countBacktrack, hfe]
        rw [if_neg hlim]
        exact succ_eq_min acc limit _ (Nat.lt_of_not_le hlim)
          (numSolutions_complete hcons (firstEmpty_none hfe))
      | some rc =>
        obtain ⟨r, c⟩ := rc
        obtain ⟨hr, hc, hempty⟩ := firstEmpty_some hfe
        simp only [countBacktrack, hfe]
        rw [if_neg hlim]
        rw [countFold hw hcons hr hc hempty (by omega) ih _
          (fun m hm => by
            have := List.mem_range'_1.mp hm
            omega)
          acc hacc]
        have hzero : ∀ n, 1 ≤ n → n ≤ 9 → ¬ is_safe b r c n →
            numSolutions (setCell b r c n) = 0 := by
          intro n h1 h9 hsafe
          unfold numSolutions
          rw [solutionSet_setCell_blocked (r := ⟨r, hr⟩) (c := ⟨c, hc⟩) hw hempty
            h1 h9 hsafe]
          exact Finset.card_empty
        have hdec := numSolutions_decompose (r := ⟨r, hr⟩) (c := ⟨c, hc⟩) hw hempty
        simp only [Fin.val_mk] at hdec
        have hsum := guarded_sum_eq (b := b) (r := r) (c := c)
          (fun n => numSolutions (setCell b r c n)) hzero
        simp only [] at hsum
        rw [hsum, ← hdec]

/-- `_count_solutions` computes the true solution count capped at `limit`
on any well-formed consistent board. -/
theorem count_solutions_min {b : Board} (hw : wf9 b) (hcons : consistent b)
    (limit : Nat) : count_solutions b limit = min (numSolutions b) limit := by
  unfold count_solutions
  rw [countBacktrack_correct 82 b 0 hw hcons (by have := emptyCount_le b; omega)
    (Nat.zero_le _)]
  rw [Nat.zero_add]

/-- A complete board is counted as exactly one solution (the counter never
re-checks the pre-filled cells). -/
theorem count_solutions_complete {b : Board} (h : complete b) :
    count_solutions b 2 = 1 := by
  unfold count_solutions
  rw [show (82 : Nat) = 81 + 1 from rfl, countBacktrack]
  rw [if_neg (by omega), firstEmpty_of_complete h]

/-! ## Lemmas about the backtracking filler -/

/-- Once the filler's candidate fold holds a success, it keeps it. -/
theorem fillFold_const {oracle : Oracle} {fuel : Nat} {b : Board} {r c : Nat} :
    ∀ (ns : List Nat) (x : Board),
      ns.foldl (fun res n =>
        match res with
        | some bb => some bb
        | none =>
          if is_safe b r c n then fill_solution_board oracle fuel (setCell b r c n)
          else none) (some x) = some x := by
  intro ns
  induction ns with
  | nil => intro x; rfl
  | cons n ns ih => intro x; exact ih x

/-- A successful candidate fold names a safe candidate whose recursive
fill succeeded. -/
theorem fillFold_some {oracle : Oracle} {fuel : Nat} {b b' : Board} {r c : Nat} :
    ∀ ns : List Nat,
      ns.foldl (fun res n =>
        match res with
        | some bb => some bb
        | none =>
          if is_safe b r c n then fill_solution_board oracle fuel (setCell b r c n)
          else none) none = some b' →
      ∃ n ∈ ns, is_safe b r c n ∧
        fill_solution_board oracle fuel (setCell b r c n) = some b' := by
  intro ns
  induction ns with
  | nil => intro h; exact absurd h (by simp)
  | cons n ns ih =>
    intro h
    have h' : ns.foldl (fun res n =>
        match res with
        | some bb => some bb
        | none =>
          if is_safe b r c n then fill_solution_board oracle fuel (setCell b r c n)
          else none)
        (if is_safe b r c n then fill_solution_board oracle fuel (setCell b r c n)
         else none) = some b' := h
    by_cases hsafe : is_safe b r c n
    · rw [if_pos hsafe] at h'
      cases hfill : fill_solution_board oracle fuel (setCell b r c n) with
      | some b0 =>
        rw [hfill, fillFold_const] at h'
        exact ⟨n, List.mem_cons_self n ns, hsafe, by rw [hfill, h']⟩
      | none =>
        rw [hfill] at h'
        obtain ⟨m, hm, hs, hf⟩ := ih h'
        exact ⟨m, List.mem_cons_of_mem n hm, hs, hf⟩
    · rw [if_neg hsafe] at h'
      obtain ⟨m, hm, hs, hf⟩ := ih h'
      exact ⟨m, List.mem_cons_of_mem n hm, hs, hf⟩

/-- Any board the filler returns is completely filled. -/
theorem fill_complete {oracle : Oracle} :
    ∀ fuel (b b' : Board), fill_solution_board oracle fuel b = some b' →
      complete b' := by
  intro fuel
  induction fuel with
  | zero =>
    intro b b' h
    exact absurd h (by simp [fill_solution_board])
  | succ fuel ih =>
    intro b b' h
    cases hfe : firstEmpty b with
    | none =>
      simp only [fill_solution_board, hfe] at h
      rw [← Option.some.inj h]
      exact firstEmpty_none hfe
    | some rc =>
      obtain ⟨r, c⟩ := rc
      simp only [fill_solution_board, hfe] at h
      obtain ⟨n, _, _, hf⟩ := fillFold_some _ h
      exact ih _ _ hf

/-- The filler preserves well-formedness and consistency, provided the
oracle only ever proposes values in `[1, 9]`. -/
theorem fill_invariant {oracle : Oracle}
    (horacle : ∀ b r c, ∀ n ∈ oracle b r c, 1 ≤ n ∧ n ≤ 9) :
    ∀ fuel (b b' : Board), wf9 b → consistent b →
      fill_solution_board oracle fuel b = some b' → wf9 b' ∧ consistent b' := by
  intro fuel
  induction fuel with
  | zero =>
    intro b b' _ _ h
    exact absurd h (by simp [fill_solution_board])
  | succ fuel ih =>
    intro b b' hw hcons h
    cases hfe : firstEmpty b with
    | none =>
      simp only [fill_solution_board, hfe] at h
      rw [← Option.some.inj h]
      exact ⟨hw, hcons⟩
    | some rc =>
      obtain ⟨r, c⟩ := rc
      obtain ⟨hr, hc, hempty⟩ := firstEmpty_some hfe
      simp only [fill_solution_board, hfe] at h
      obtain ⟨n, hmem, hsafe, hf⟩ := fillFold_some _ h
      have hn := horacle b r c n hmem
      exact ih _ _ (wf9_setCell hw r c n)
        (consistent_setCell hw hcons hr hc hempty hn.1 hn.2 hsafe) hf

/-! ## From complete consistent boards to unit permutations -/

/-- A duplicate-free 9-element list of values from `[1, 9]` is a
permutation of `1..9`. -/
theorem perm_range'_of_nodup {l : List Nat} (hlen : l.length = 9)
    (hnodup : l.Nodup) (hmem : ∀ x ∈ l, 1 ≤ x ∧ x ≤ 9) :
    l.Perm (List.range' 1 9) := by
  apply List.perm_of_nodup_nodup_toFinset_eq hnodup (by decide)
  apply Finset.eq_of_subset_of_card_le
  · intro x hx
    rw [List.mem_toFinset] at hx ⊢
    have := hmem x hx
    rw [List.mem_range'_1]
    omega
  · rw [List.toFinset_card_of_nodup hnodup, hlen,
      List.toFinset_card_of_nodup (by decide)]
    simp

/-- With both indices in range, a row is the list of its cells. -/
theorem rowList_eq_map {b : Board} (hw : wf9 b) {r : Nat} (hr : r < 9) :
    rowList b r = (List.range 9).map (fun c => cell b r c) := by
  apply List.ext_getElem
  · rw [rowList_length hw hr]; simp
  · intro i h1 h2
    rw [rowList_length hw hr] at h1
    simp only [List.getElem_map, List.getElem_range]
    rw [cell_eq_get hw hr h1]
    simp [List.get_eq_getElem]

/-- The 3x3 box list as a map over the nine in-box offsets. -/
def boxOffsets : List (Nat × Nat) :=
  (List.range 3).flatMap (fun i => (List.range 3).map (fun j => (i, j)))

theorem boxList_eq_map (b : Board) (r c : Nat) :
    boxList b r c =
      boxOffsets.map (fun p => cell b (r / 3 * 3 + p.1) (c / 3 * 3 + p.2)) := by
  unfold boxList boxOffsets
  rw [List.map_flatMap]
  refine congrArg _ ?_
  funext i
  rw [List.map_map]
  rfl

theorem rowList_perm {b : Board} (hw : wf9 b) (hcons : consistent b)
    (hcomp : complete b) (r : Fin 9) :
    (rowList b r.val).Perm (List.range' 1 9) := by
  rw [rowList_eq_map hw r.isLt]
  apply perm_range'_of_nodup
  · simp
  · refine (List.nodup_map_iff_inj_on (List.nodup_range 9)).mpr ?_
    intro c₁ hc₁ c₂ hc₂ heq
    rw [List.mem_range] at hc₁ hc₂
    have := hcons.2 r ⟨c₁, hc₁⟩ r ⟨c₂, hc₂⟩ (Or.inl rfl) (hcomp r ⟨c₁, hc₁⟩) heq
    exact congrArg Fin.val this.2
  · intro x hx
    rw [List.mem_map] at hx
    obtain ⟨c', hc', rfl⟩ := hx
    rw [List.mem_range] at hc'
    have h0 := hcomp r ⟨c', hc'⟩
    have h9 := hcons.1 r ⟨c', hc'⟩
    simp only [Fin.val_mk] at h0 h9
    exact ⟨by omega, h9⟩

theorem colList_perm {b : Board} (hw : wf9 b) (hcons : consistent b)
    (hcomp : complete b) (c : Fin 9) :
    (colList b c.val).Perm (List.range' 1 9) := by
  unfold colList
  apply perm_range'_of_nodup
  · simp
  · refine (List.nodup_map_iff_inj_on (List.nodup_range 9)).mpr ?_
    intro r₁ hr₁ r₂ hr₂ heq
    rw [List.mem_range] at hr₁ hr₂
    have := hcons.2 ⟨r₁, hr₁⟩ c ⟨r₂, hr₂⟩ c (Or.inr (Or.inl rfl))
      (hcomp ⟨r₁, hr₁⟩ c) heq
    exact congrArg Fin.val this.1
  · intro x hx
    rw [List.mem_map] at hx
    obtain ⟨r', hr', rfl⟩ := hx
    rw [List.mem_range] at hr'
    have h0 := hcomp ⟨r', hr'⟩ c
    have h9 := hcons.1 ⟨r', hr'⟩ c
    simp only [Fin.val_mk] at h0 h9
    exact ⟨by omega, h9⟩

theorem boxList_perm {b : Board} (hw : wf9 b) (hcons : consistent b)
    (hcomp : complete b) (r c : Fin 9) :
    (boxList b r.val c.val).Perm (List.range' 1 9) := by
  rw [boxList_eq_map]
  have hr3 : r.val / 3 * 3 + 2 < 9 := by have := r.isLt; omega
  have hc3 : c.val / 3 * 3 + 2 < 9 := by have := c.isLt; omega
  apply perm_range'_of_nodup
  · rfl
  · refine (List.nodup_map_iff_inj_on (by decide)).mpr ?_
    intro p₁ hp₁ p₂ hp₂ heq
    obtain ⟨i₁, j₁⟩ := p₁
    obtain ⟨i₂, j₂⟩ := p₂
    have hb₁ : i₁ < 3 ∧ j₁ < 3 := by
      unfold boxOffsets at hp₁
      simp only [List.mem_flatMap, List.mem_map, List.mem_range] at hp₁
      obtain ⟨a, ha, bb, hbb, heq'⟩ := hp₁
      obtain ⟨h1, h2⟩ := Prod.mk.injEq .. ▸ heq'
      omega
    have hb₂ : i₂ < 3 ∧ j₂ < 3 := by
      unfold boxOffsets at hp₂
      simp only [List.mem_flatMap, List.mem_map, List.mem_range] at hp₂
      obtain ⟨a, ha, bb, hbb, heq'⟩ := hp₂
      obtain ⟨h1, h2⟩ := Prod.mk.injEq .. ▸ heq'
      omega
    obtain ⟨hi₁, hj₁⟩ := hb₁
    obtain ⟨hi₂, hj₂⟩ := hb₂
    have hvr := r.isLt
    have hvc := c.isLt
    have hru : (r.val / 3 * 3 + i₁) / 3 = (r.val / 3 * 3 + i₂) / 3 := by
      omega
    have hcu : (c.val / 3 * 3 + j₁) / 3 = (c.val / 3 * 3 + j₂) / 3 := by
      omega
    have hpe := hcons.2
      ⟨r.val / 3 * 3 + i₁, by omega⟩ ⟨c.val / 3 * 3 + j₁, by omega⟩
      ⟨r.val / 3 * 3 + i₂, by omega⟩ ⟨c.val / 3 * 3 + j₂, by omega⟩
      (Or.inr (Or.inr ⟨hru, hcu⟩))
      (hcomp ⟨r.val / 3 * 3 + i₁, by omega⟩ ⟨c.val / 3 * 3 + j₁, by omega⟩)
      heq
    have h1 := congrArg Fin.val hpe.1
    have h2 := congrArg Fin.val hpe.2
    simp only [Fin.val_mk] at h1 h2
    exact Prod.ext (by omega) (by omega)
  · intro x hx
    rw [List.mem_map] at hx
    obtain ⟨p, hp, rfl⟩ := hx
    obtain ⟨i, j⟩ := p
    have hb : i < 3 ∧ j < 3 := by
      unfold boxOffsets at hp
      simp only [List.mem_flatMap, List.mem_map, List.mem_range] at hp
      obtain ⟨a, ha, bb, hbb, heq'⟩ := hp
      obtain ⟨h1, h2⟩ := Prod.mk.injEq .. ▸ heq'
      omega
    have hvr := r.isLt
    have hvc := c.isLt
    have h0 := hcomp ⟨r.val / 3 * 3 + i, by omega⟩ ⟨c.val / 3 * 3 + j, by omega⟩
    have h9 := hcons.1 ⟨r.val / 3 * 3 + i, by omega⟩ ⟨c.val / 3 * 3 + j, by omega⟩
    simp only [Fin.val_mk] at h0 h9
    constructor
    · show 1 ≤ cell b (r.val / 3 * 3 + i) (c.val / 3 * 3 + j)
      omega
    · show cell b (r.val / 3 * 3 + i) (c.val / 3 * 3 + j) ≤ 9
      exact h9

/-! ## Lemmas about the clue-removal loops -/

/-- A non-empty cell is in range on a well-formed board. -/
theorem lt_of_cell_ne_zero {b : Board} (hw : wf9 b) {r c : Nat}
    (h : cell b r c ≠ 0) : r < 9 ∧ c < 9 := by
  by_contra hcon
  push_neg at hcon
  rcases Nat.lt_or_ge r 9 with hr | hr
  · exact h (cell_out_of_range hw (Or.inr (hcon hr)))
  · exact h (cell_out_of_range hw (Or.inl hr))

/-- Clearing a non-empty cell adds exactly one empty cell. -/
theorem emptyCount_clearCell {b : Board} (hw : wf9 b) {r c : Nat}
    (hne : cell b r c ≠ 0) :
    emptyCount (setCell b r c 0) = emptyCount b + 1 := by
  obtain ⟨hr, hc⟩ := lt_of_cell_ne_zero hw hne
  unfold emptyCount
  set p : Fin 9 × Fin 9 := (⟨r, hr⟩, ⟨c, hc⟩) with hp
  have hnotmem : p ∉ Finset.univ.filter
      (fun rc : Fin 9 × Fin 9 => cell b rc.1.val rc.2.val = 0) := by
    simp [hp, hne]
  have hset : Finset.univ.filter
      (fun rc : Fin 9 × Fin 9 => cell (setCell b r c 0) rc.1.val rc.2.val = 0) =
      insert p (Finset.univ.filter
        (fun rc : Fin 9 × Fin 9 => cell b rc.1.val rc.2.val = 0)) := by
    ext x
    simp only [Finset.mem_filter, Finset.mem_insert, Finset.mem_univ, true_and]
    by_cases hx : r = x.1.val ∧ c = x.2.val
    · rw [← hx.1, ← hx.2, cell_setCell_self hw 0 hr hc]
      constructor
      · intro _
        left
        rw [hp]
        refine Prod.ext ?_ ?_ <;> apply Fin.ext <;> simp [hx.1, hx.2]
      · intro _; rfl
    · rw [cell_setCell_ne 0 (by tauto)]
      constructor
      · intro h0; right; exact h0
      · intro h0
        rcases h0 with h0 | h0
        · exfalso
          rw [h0, hp] at hx
          simp at hx
        · exact h0
  rw [hset, Finset.card_insert_of_not_mem hnotmem]

/-- C3's invariant: with a target above 25 every removal step of
`_remove_clues_with_unique_solution` either verifies that the cleared
board still has a unique counted solution or restores the value, so
`count_solutions _ 2 = 1` is preserved by the whole loop. -/
theorem sg_remove_loop_unique {picks : Nat → Nat × Nat}
    {target cellsToRemove : Nat} (htarget : 26 ≤ target) :
    ∀ fuel b removed attempts, count_solutions b 2 = 1 →
      count_solutions
        (sg_remove_loop picks target cellsToRemove fuel b removed attempts).1 2
        = 1 := by
  intro fuel
  induction fuel with
  | zero => intro b removed attempts h; exact h
  | succ fuel ih =>
    intro b removed attempts h
    rw [sg_remove_loop]
    by_cases hrem : removed < cellsToRemove
    · rw [if_pos hrem]
      by_cases hcell : cell b (picks attempts).1 (picks attempts).2 ≠ 0
      · rw [if_pos hcell, if_neg (by omega)]
        by_cases huniq : ensure_unique_solution
            (setCell b (picks attempts).1 (picks attempts).2 0)
        · rw [if_pos huniq]
          exact ih _ _ _ huniq
        · rw [if_neg huniq]
          exact ih _ _ _ h
      · rw [if_neg hcell]
        exact ih _ _ _ h
    · rw [if_neg hrem]
      exact h

/-- Book-keeping invariant of the generator's removal loop: the board
stays well-formed, `removed` never exceeds its quota, and each unit of
`removed` accounts for exactly one newly empty cell. -/
theorem sg_remove_loop_count {picks : Nat → Nat × Nat}
    {target cellsToRemove : Nat} :
    ∀ fuel b removed attempts, wf9 b → removed ≤ cellsToRemove →
      wf9 (sg_remove_loop picks target cellsToRemove fuel b removed attempts).1 ∧
      (sg_remove_loop picks target cellsToRemove fuel b removed attempts).2
        ≤ cellsToRemove ∧
      emptyCount
          (sg_remove_loop picks target cellsToRemove fuel b removed attempts).1
        + removed
        = emptyCount b
        + (sg_remove_loop picks target cellsToRemove fuel b removed attempts).2 := by
  intro fuel
  induction fuel with
  | zero =>
    intro b removed attempts hw hrem
    exact ⟨hw, hrem, rfl⟩
  | succ fuel ih =>
    intro b removed attempts hw hrem
    rw [sg_remove_loop]
    by_cases hlt : removed < cellsToRemove
    · rw [if_pos hlt]
      by_cases hcell : cell b (picks attempts).1 (picks attempts).2 ≠ 0
      · rw [if_pos hcell]
        have hwc := wf9_setCell hw (picks attempts).1 (picks attempts).2 0
        have hec := emptyCount_clearCell hw hcell
        by_cases h25 : target ≤ 25
        · rw [if_pos h25]
          have := ih (setCell b (picks attempts).1 (picks attempts).2 0)
            (removed + 1) (attempts + 1) hwc (by omega)
          exact ⟨this.1, this.2.1, by omega⟩
        · rw [if_neg h25]
          by_cases huniq : ensure_unique_solution
              (setCell b (picks attempts).1 (picks attempts).2 0)
          · rw [if_pos huniq]
            have := ih (setCell b (picks attempts).1 (picks attempts).2 0)
              (removed + 1) (attempts + 1) hwc (by omega)
            exact ⟨this.1, this.2.1, by omega⟩
          · rw [if_neg huniq]
            exact ih b removed (attempts + 1) hw hrem
      · rw [if_neg hcell]
        exact ih b removed (attempts + 1) hw hrem
    · rw [if_neg hlt]
      exact ⟨hw, hrem, rfl⟩

/-- The removal loop with the uniqueness verification removed altogether:
every clearing of a non-empty cell is kept, and the solution counter is
never invoked.  This is the behaviour the claim attributes to low-target
removals; `sg_remove_loop` coincides with it exactly when
`target_clues <= 25`. -/
def sg_remove_loop_noverify (picks : Nat → Nat × Nat) (cellsToRemove : Nat) :
    Nat → Board → Nat → Nat → Board × Nat
  | 0, b, removed, _ => (b, removed)
  | fuel + 1, b, removed, attempts =>
    if removed < cellsToRemove then
      let rc := picks attempts
      if cell b rc.1 rc.2 ≠ 0 then
        sg_remove_loop_noverify picks cellsToRemove fuel
          (setCell b rc.1 rc.2 0) (removed + 1) (attempts + 1)
      else sg_remove_loop_noverify picks cellsToRemove fuel b removed (attempts + 1)
    else (b, removed)

/-- For `target <= 25` the generator's removal loop is the verification-free
loop. -/
theorem sg_remove_loop_eq_noverify {picks : Nat → Nat × Nat}
    {target cellsToRemove : Nat} (h25 : target ≤ 25) :
    ∀ fuel b removed attempts,
      sg_remove_loop picks target cellsToRemove fuel b removed attempts =
      sg_remove_loop_noverify picks cellsToRemove fuel b removed attempts := by
  intro fuel
  induction fuel with
  | zero => intro b removed attempts; rfl
  | succ fuel ih =>
    intro b removed attempts
    rw [sg_remove_loop, sg_remove_loop_noverify]
    by_cases hlt : removed < cellsToRemove
    · rw [if_pos hlt, if_pos hlt]
      by_cases hcell : cell b (picks attempts).1 (picks attempts).2 ≠ 0
      · rw [if_pos hcell, if_pos hcell, if_pos h25]
        exact ih _ _ _
      · rw [if_neg hcell, if_neg hcell]
        exact ih _ _ _
    · rw [if_neg hlt, if_neg hlt]

theorem emptyCount_of_complete {b : Board} (h : complete b) :
    emptyCount b = 0 := by
  unfold emptyCount
  rw [Finset.card_eq_zero, Finset.eq_empty_iff_forall_not_mem]
  intro x hx
  rw [Finset.mem_filter] at hx
  exact h x.1 x.2 hx.2

/-! ## Concrete boards for the scenario proofs -/

/-- A valid solved grid containing the unavoidable rectangle
`{(0,0),(0,1),(3,0),(3,1)}` with values `1,2 / 2,1`: swapping those four
cells yields a second valid grid, so clearing them produces a two-solution
puzzle. -/
def G2 : Board :=
  [[1, 2, 3, 4, 5, 6, 7, 8, 9],
   [4, 5, 6, 7, 8, 9, 1, 2, 3],
   [7, 8, 9, 1, 2, 3, 4, 5, 6],
   [2, 1, 4, 3, 6, 5, 8, 9, 7],
   [3, 6, 5, 8, 9, 7, 2, 1, 4],
   [8, 9, 7, 2, 1, 4, 3, 6, 5],
   [5, 3, 1, 6, 4, 2, 9, 7, 8],
   [6, 4, 2, 9, 7, 8, 5, 3, 1],
   [9, 7, 8, 5, 3, 1, 6, 4, 2]]

/-- A shuffle oracle that always lists the `G2` value first: one possible
outcome of `random.shuffle`, under which the filler reproduces `G2` from
the empty board without backtracking. -/
def orG2 : Oracle := fun _ r c =>
  cell G2 r c :: (List.range' 1 9).filter (fun n => decide (n ≠ cell G2 r c))

/-- Removal picks clearing `(3,8)` and all of rows 4-8: 46 distinct
filled cells, the quota for a 35-clue puzzle. -/
def picks46 : List (Nat × Nat) :=
  (3, 8) :: (List.range 5).flatMap (fun i =>
    (List.range 9).map (fun c => (4 + i, c)))

/-- `G2` with `(3,8)` and rows 4-8 cleared: the 35-clue puzzle
`remove_clues` produces from `G2` under `picks46`. -/
def P1 : Board :=
  [[1, 2, 3, 4, 5, 6, 7, 8, 9],
   [4, 5, 6, 7, 8, 9, 1, 2, 3],
   [7, 8, 9, 1, 2, 3, 4, 5, 6],
   [2, 1, 4, 3, 6, 5, 8, 9, 0],
   [0, 0, 0, 0, 0, 0, 0, 0, 0],
   [0, 0, 0, 0, 0, 0, 0, 0, 0],
   [0, 0, 0, 0, 0, 0, 0, 0, 0],
   [0, 0, 0, 0, 0, 0, 0, 0, 0],
   [0, 0, 0, 0, 0, 0, 0, 0, 0]]

/-- The constant removal pick `(0,0)`. -/
def pick00 : Nat → Nat × Nat := fun _ => (0, 0)

/-- `G2` with only `(0,0)` cleared: 80 clues. -/
def B79 : Board :=
  [[0, 2, 3, 4, 5, 6, 7, 8, 9],
   [4, 5, 6, 7, 8, 9, 1, 2, 3],
   [7, 8, 9, 1, 2, 3, 4, 5, 6],
   [2, 1, 4, 3, 6, 5, 8, 9, 7],
   [3, 6, 5, 8, 9, 7, 2, 1, 4],
   [8, 9, 7, 2, 1, 4, 3, 6, 5],
   [5, 3, 1, 6, 4, 2, 9, 7, 8],
   [6, 4, 2, 9, 7, 8, 5, 3, 1],
   [9, 7, 8, 5, 3, 1, 6, 4, 2]]

/-- `G2` with only `(8,8)` cleared: a consistent board with one empty
cell. -/
def B80 : Board :=
  [[1, 2, 3, 4, 5, 6, 7, 8, 9],
   [4, 5, 6, 7, 8, 9, 1, 2, 3],
   [7, 8, 9, 1, 2, 3, 4, 5, 6],
   [2, 1, 4, 3, 6, 5, 8, 9, 7],
   [3, 6, 5, 8, 9, 7, 2, 1, 4],
   [8, 9, 7, 2, 1, 4, 3, 6, 5],
   [5, 3, 1, 6, 4, 2, 9, 7, 8],
   [6, 4, 2, 9, 7, 8, 5, 3, 1],
   [9, 7, 8, 5, 3, 1, 6, 4, 0]]

/-- `G2` with the rectangle cells `(0,0)`, `(0,1)`, `(3,0)` cleared:
clearing `(3,1)` as well would leave two solutions. -/
def B3 : Board :=
  [[0, 0, 3, 4, 5, 6, 7, 8, 9],
   [4, 5, 6, 7, 8, 9, 1, 2, 3],
   [7, 8, 9, 1, 2, 3, 4, 5, 6],
   [0, 1, 4, 3, 6, 5, 8, 9, 7],
   [3, 6, 5, 8, 9, 7, 2, 1, 4],
   [8, 9, 7, 2, 1, 4, 3, 6, 5],
   [5, 3, 1, 6, 4, 2, 9, 7, 8],
   [6, 4, 2, 9, 7, 8, 5, 3, 1],
   [9, 7, 8, 5, 3, 1, 6, 4, 2]]

/-- The constant removal pick `(3,1)`. -/
def pick31 : Nat → Nat × Nat := fun _ => (3, 1)

/-- The all-fives complete board. -/
def all5 : Board := List.replicate 9 (List.replicate 9 5)

/-- The identity-order oracle (`random.shuffle` returning `1..9`
unchanged). -/
def ordOracle : Oracle := fun _ _ _ => List.range' 1 9

/-- The Scenario C board: empty but for `board[0][0] = 5`. -/
def B6 : Board :=
  [[5, 0, 0, 0, 0, 0, 0, 0, 0],
   [0, 0, 0, 0, 0, 0, 0, 0, 0],
   [0, 0, 0, 0, 0, 0, 0, 0, 0],
   [0, 0, 0, 0, 0, 0, 0, 0, 0],
   [0, 0, 0, 0, 0, 0, 0, 0, 0],
   [0, 0, 0, 0, 0, 0, 0, 0, 0],
   [0, 0, 0, 0, 0, 0, 0, 0, 0],
   [0, 0, 0, 0, 0, 0, 0, 0, 0],
   [0, 0, 0, 0, 0, 0, 0, 0, 0]]

/-- The Scenario B board: empty but for `board[0][0] = 5` and
`board[0][1] = 5`. -/
def B8 : Board :=
  [[5, 5, 0, 0, 0, 0, 0, 0, 0],
   [0, 0, 0, 0, 0, 0, 0, 0, 0],
   [0, 0, 0, 0, 0, 0, 0, 0, 0],
   [0, 0, 0, 0, 0, 0, 0, 0, 0],
   [0, 0, 0, 0, 0, 0, 0, 0, 0],
   [0, 0, 0, 0, 0, 0, 0, 0, 0],
   [0, 0, 0, 0, 0, 0, 0, 0, 0],
   [0, 0, 0, 0, 0, 0, 0, 0, 0],
   [0, 0, 0, 0, 0, 0, 0, 0, 0]]

/-- A concrete stored game state (`domain.models.GameState`). -/
def gs0 : GameState :=
  { game_id := "g1", puzzle := ⟨P1⟩, solution := ⟨G2⟩,
    current_board := ⟨P1⟩, difficulty := "medium", moves := 0 }

/-! ## Claim theorems -/

/-- C9: for every clue count `n` outside `[17, 81]`,
`generate_puzzle(clues=n)` raises `ValueError` before doing anything
else: the result is the error for every filler oracle and every removal
pick sequence, so no solution board is ever built and no cell is ever
written on this path. -/
theorem C9_invalid_clue_count_error (oracle : Oracle) (picks : List (Nat × Nat))
    {n : Nat} (h : n < 17 ∨ 81 < n) :
    generate_puzzle oracle picks n = .error .valueError := by
  unfold generate_puzzle
  rw [if_neg (by omega)]

theorem C9_witness :
    (10 < 17 ∨ 81 < 10) ∧
    generate_puzzle ordOracle [] 10 = .error .valueError :=
  ⟨Or.inl (by decide),
    C9_invalid_clue_count_error ordOracle [] (Or.inl (by decide))⟩

/-- C2: `GameService.get_hint` on a game whose current board still has an
empty cell never reaches the hint response: after selecting the random
empty cell and writing the solution value into the working boards it
executes `game_state.locked_cells.append(...)`, but the stored state is a
`domain.models.GameState`, which has no `locked_cells` attribute, so the
call raises `AttributeError` — the hint counter is never incremented and
no position is ever added to a locked-cell set. -/
theorem C2_get_hint_attribute_error (gs : GameState) (current : Board) (k : Nat)
    (h : ∃ r c : Fin 9, cell current r.val c.val = 0) :
    get_hint gs current k = .error .attributeError := by
  obtain ⟨r, c, hrc⟩ := h
  have hmem : (r.val, c.val) ∈ emptyCellsOf current := by
    unfold emptyCellsOf
    rw [List.mem_flatMap]
    refine ⟨r.val, List.mem_range.mpr r.isLt, ?_⟩
    rw [List.mem_filterMap]
    exact ⟨c.val, List.mem_range.mpr c.isLt, by rw [if_pos hrc]⟩
  unfold get_hint
  rw [if_neg (List.ne_nil_of_mem hmem)]

theorem C2_witness :
    (∃ r c : Fin 9, cell P1 r.val c.val = 0) ∧
    get_hint gs0 P1 0 = .error .attributeError :=
  ⟨⟨4, 0, by decide⟩,
    C2_get_hint_attribute_error gs0 P1 0 ⟨4, 0, by decide⟩⟩

/-- Any successful `SudokuGenerator.generate_puzzle` run whose drawn
target is at least 26 yields a puzzle on which the solution counter
reports exactly one solution: the full solution board counts as 1, and
every removal step either re-verifies uniqueness or restores the cell. -/
theorem sg_generate_unique_of_26 (oracle : Oracle) (picks : Nat → Nat × Nat)
    {target : Nat} (h26 : 26 ≤ target) (h81 : target ≤ 81)
    {difficulty : String} {p s : Board}
    (h : sg_generate_puzzle oracle picks target difficulty = .ok (p, s)) :
    count_solutions p 2 = 1 := by
  have h17 : 17 ≤ target := by omega
  cases hlk : DIFFICULTY_LEVELS.lookup difficulty with
  | none =>
    simp only [sg_generate_puzzle, hlk] at h
    exact absurd h (by simp)
  | some val =>
    cases hfill : fill_solution_board oracle 82 create_empty_board with
    | none =>
      simp only [sg_generate_puzzle, hlk, hfill] at h
      exact absurd h (by simp)
    | some sol =>
      rcases hloop : sg_remove_loop picks target (81 - target)
          ((81 - target) * 5) sol 0 0 with ⟨puz, rem⟩
      have hif : 17 ≤ target ∧ target ≤ 81 := ⟨h17, h81⟩
      simp only [sg_generate_puzzle, sg_remove_clues, hlk, hfill, if_pos hif,
        hloop] at h
      have h1 : count_solutions sol 2 = 1 :=
        count_solutions_complete (fill_complete _ _ _ hfill)
      have h2 := @sg_remove_loop_unique picks target (81 - target) h26
        ((81 - target) * 5) sol 0 0 h1
      rw [hloop] at h2
      simp only [Except.ok.injEq, Prod.mk.injEq] at h
      rw [← h.1]
      exact h2

/-- C3: every puzzle `SudokuGenerator.generate_puzzle` produces at the
easy or medium tier (clue targets 40-45 and 30-35, both above the
verification threshold 25) has `count_solutions(puzzle, 2) = 1`; every
clue removal either verifies that uniqueness is preserved or restores the
cleared value, so uniqueness is an invariant of the removal loop starting
from the full solved grid. -/
theorem C3_easy_medium_unique (oracle : Oracle) (picks : Nat → Nat × Nat)
    {target : Nat} {difficulty : String} {lo hi : Nat}
    (hdiff : difficulty = "easy" ∨ difficulty = "medium")
    (hlookup : DIFFICULTY_LEVELS.lookup difficulty = some (lo, hi))
    (hlo : lo ≤ target) (hhi : target ≤ hi)
    {p s : Board}
    (h : sg_generate_puzzle oracle picks target difficulty = .ok (p, s)) :
    count_solutions p 2 = 1 := by
  have hb : 26 ≤ target ∧ target ≤ 81 := by
    rcases hdiff with rfl | rfl
    · rw [show DIFFICULTY_LEVELS.lookup "easy" = some (40, 45) from rfl]
        at hlookup
      simp only [Option.some.injEq, Prod.mk.injEq] at hlookup
      omega
    · rw [show DIFFICULTY_LEVELS.lookup "medium" = some (30, 35) from rfl]
        at hlookup
      simp only [Option.some.injEq, Prod.mk.injEq] at hlookup
      omega
  exact sg_generate_unique_of_26 oracle picks hb.1 hb.2 h

set_option maxRecDepth 40000 in
theorem C3_witness :
    ("easy" = "easy" ∨ "easy" = "medium") ∧
    DIFFICULTY_LEVELS.lookup "easy" = some (40, 45) ∧
    (40 ≤ 45 ∧ 45 ≤ 45) ∧
    sg_generate_puzzle orG2 pick00 45 "easy" = .ok (B79, G2) ∧
    count_solutions B79 2 = 1 := by
  have hgen : sg_generate_puzzle orG2 pick00 45 "easy" = .ok (B79, G2) := by
    rfl
  have hlk : DIFFICULTY_LEVELS.lookup "easy" = some (40, 45) := by decide
  exact ⟨Or.inl rfl, hlk, by decide, hgen,
    C3_easy_medium_unique orG2 pick00 (Or.inl rfl) hlk (by decide)
      (by decide) hgen⟩

/-- C4 counterexample: target 79 lies in `[17, 81]` and is far above the
best-effort threshold 25, so its tier verifies uniqueness ("strict"), yet
with removal picks that keep drawing the already-cleared cell `(0,0)` the
attempt cap (`2 * 5 = 10`) runs out after a single removal and the
returned puzzle has 80 clues, not 79. -/
theorem C4_counterexample :
    (17 ≤ 79 ∧ 79 ≤ 81 ∧ 25 < 79) ∧
    sg_remove_clues G2 79 pick00 = .ok (B79, 1) ∧
    nonZeroCount B79 = 80 ∧ nonZeroCount B79 ≠ 79 := by
  refine ⟨by decide, by rfl, by decide, by decide⟩

/-- C4 (amended): for every target `n` in `[17, 81]` — strict or
best-effort tier alike — the puzzle returned by the generator's clue
removal has at least `n` non-zero cells; the count equals `n` exactly
when the loop reaches its removal quota (under the strict tier the
attempt cap can stop it early, leaving more than `n` clues). -/
theorem C4_clue_count_bound {b : Board} (hw : wf9 b) (hcomp : complete b)
    (picks : Nat → Nat × Nat) {target : Nat} (h17 : 17 ≤ target)
    (h81 : target ≤ 81) {p : Board} {removed : Nat}
    (h : sg_remove_clues b target picks = .ok (p, removed)) :
    target ≤ nonZeroCount p ∧
    (removed = 81 - target → nonZeroCount p = target) := by
  unfold sg_remove_clues at h
  rw [if_pos ⟨h17, h81⟩] at h
  rcases hloop : sg_remove_loop picks target (81 - target)
      ((81 - target) * 5) b 0 0 with ⟨puz, rem⟩
  rw [hloop] at h
  simp only [Except.ok.injEq, Prod.mk.injEq] at h
  obtain ⟨hp, hr⟩ := h
  subst hp
  subst hr
  have hcount := @sg_remove_loop_count picks target (81 - target)
    ((81 - target) * 5) b 0 0 hw (Nat.zero_le _)
  rw [hloop] at hcount
  simp only at hcount
  obtain ⟨hwp, hrem, hemp⟩ := hcount
  have h1 := emptyCount_add_nonZeroCount puz
  have h2 := emptyCount_add_nonZeroCount b
  have h3 := emptyCount_of_complete hcomp
  constructor
  · omega
  · intro hq
    omega

set_option maxRecDepth 40000 in
theorem C4_witness :
    wf9 G2 ∧ complete G2 ∧ (17 ≤ 79 ∧ 79 ≤ 81) ∧
    sg_remove_clues G2 79 pick00 = .ok (B79, 1) ∧
    79 ≤ nonZeroCount B79 := by
  have hrm : sg_remove_clues G2 79 pick00 = .ok (B79, 1) := by rfl
  exact ⟨by decide, by decide, by decide, hrm,
    (C4_clue_count_bound (by decide) (by decide) pick00 (by decide)
      (by decide) hrm).1⟩

set_option maxRecDepth 40000 in
/-- C1: the clue-count entry point `generate_puzzle(clues=35)` in
`domain/sudoku_game.py` does not verify uniqueness (its `remove_clues`
clears cells unconditionally), contradicting its own docstring
("Generate a valid Sudoku puzzle with unique solution") and the claim: a
possible run — filler producing `G2`, removal picks clearing `(3,8)` and
all of rows 4-8 — returns the 35-clue puzzle `P1`, on which the solution
counter with limit 2 reports 2 solutions, not 1. -/
theorem C1_generate_35_not_unique :
    generate_puzzle orG2 picks46 35 = .ok (P1, G2) ∧
    nonZeroCount P1 = 35 ∧
    count_solutions P1 2 = 2 ∧ (2 : Nat) ≠ 1 := by
  refine ⟨by rfl, by decide, by decide, by decide⟩

/-- C5 counterexample: the claim quantifies over every 9x9 grid, but the
filler "returns success" unchanged on any complete grid, valid or not:
on the all-fives board it immediately reports success, every cell is in
`[1, 9]`, yet row 0 is not a permutation of `1..9`. -/
theorem C5_counterexample :
    fill_solution_board ordOracle 82 all5 = some all5 ∧
    (∀ r c : Fin 9, 1 ≤ cell all5 r.val c.val ∧ cell all5 r.val c.val ≤ 9) ∧
    ¬ (rowList all5 0).Perm (List.range' 1 9) := by
  refine ⟨by rfl, by decide, by decide⟩

/-- C5 (amended): whenever the backtracking filler returns success on a
well-formed 9x9 grid whose existing clues are consistent (no same-unit
duplicates, values in `[0, 9]` — in particular the all-empty grid), and
the shuffle oracle only proposes values in `[1, 9]`, the resulting grid
has every cell in `[1, 9]` and every row, column and 3x3 box a
permutation of `1..9`. -/
theorem C5_filler_valid {oracle : Oracle}
    (horacle : ∀ b r c, ∀ n ∈ oracle b r c, 1 ≤ n ∧ n ≤ 9)
    {fuel : Nat} {b b' : Board} (hw : wf9 b) (hcons : consistent b)
    (h : fill_solution_board oracle fuel b = some b') :
    (∀ r c : Fin 9, 1 ≤ cell b' r.val c.val ∧ cell b' r.val c.val ≤ 9) ∧
    (∀ r : Fin 9, (rowList b' r.val).Perm (List.range' 1 9)) ∧
    (∀ c : Fin 9, (colList b' c.val).Perm (List.range' 1 9)) ∧
    (∀ r c : Fin 9, (boxList b' r.val c.val).Perm (List.range' 1 9)) := by
  obtain ⟨hw', hcons'⟩ := fill_invariant horacle fuel b b' hw hcons h
  have hcomp := fill_complete fuel b b' h
  refine ⟨?_, fun r => rowList_perm hw' hcons' hcomp r,
    fun c => colList_perm hw' hcons' hcomp c,
    fun r c => boxList_perm hw' hcons' hcomp r c⟩
  intro r c
  have h0 := hcomp r c
  have h9 := hcons'.1 r c
  omega

set_option maxRecDepth 40000 in
theorem C5_witness :
    (∀ bb r c, ∀ n ∈ ordOracle bb r c, 1 ≤ n ∧ n ≤ 9) ∧
    wf9 B80 ∧ consistent B80 ∧
    fill_solution_board ordOracle 82 B80 = some G2 ∧
    (rowList G2 0).Perm (List.range' 1 9) := by
  have horacle : ∀ (bb : Board) (r c : Nat), ∀ n ∈ ordOracle bb r c,
      1 ≤ n ∧ n ≤ 9 := by
    intro bb r c n hn
    unfold ordOracle at hn
    rw [List.mem_range'_1] at hn
    omega
  have hfill : fill_solution_board ordOracle 82 B80 = some G2 := by rfl
  exact ⟨horacle, by decide, by decide, hfill,
    (C5_filler_valid horacle (by decide) (by decide) hfill).2.1 0⟩

/-- The all-fives board has no valid completion: any solution would carry
the duplicated 5s of row 0. -/
theorem numSolutions_all5 : numSolutions all5 = 0 := by
  unfold numSolutions
  rw [Finset.card_eq_zero, Finset.eq_empty_iff_forall_not_mem]
  intro f hf
  rw [solutionSet, Finset.mem_filter] at hf
  obtain ⟨-, hext, hvalid⟩ := hf
  have h00 := hext 0 0 (by decide)
  have h01 := hext 0 1 (by decide)
  rw [(by decide : cell all5 (0 : Fin 9).val (0 : Fin 9).val = 5)] at h00
  rw [(by decide : cell all5 (0 : Fin 9).val (1 : Fin 9).val = 5)] at h01
  have hval : f 0 0 = f 0 1 := by
    apply Fin.ext
    unfold fcell at h00 h01
    omega
  have := hvalid 0 0 0 1 (Or.inl rfl) hval
  exact absurd this.2 (by decide)

/-- C7 counterexample: the claim covers every 9x9 grid, but on a grid
whose pre-filled cells already conflict the counter never rechecks them:
the all-fives board has no completion (`numSolutions = 0`), yet
`_count_solutions` with limit 2 returns 1, not 0. -/
theorem C7_counterexample :
    count_solutions all5 2 = 1 ∧ numSolutions all5 = 0 ∧ (1 : Nat) ≠ 0 :=
  ⟨by decide, numSolutions_all5, by decide⟩

/-- C7 (amended): for every well-formed 9x9 grid whose clues are
consistent and every limit at least 1, the solution counter returns
exactly `min(number of solutions, limit)`: a value in `{0, ..., limit}`
that is 0 when the grid has no completion, the exact solution count when
that count is below the limit, and `limit` when the grid has `limit` or
more solutions. -/
theorem C7_count_solutions_contract {b : Board} {limit : Nat} (hw : wf9 b)
    (hcons : consistent b) (hlim : 1 ≤ limit) :
    count_solutions b limit = min (numSolutions b) limit ∧
    count_solutions b limit ≤ limit ∧
    (numSolutions b = 0 → count_solutions b limit = 0) ∧
    (numSolutions b < limit → count_solutions b limit = numSolutions b) ∧
    (limit ≤ numSolutions b → count_solutions b limit = limit) := by
  have h := count_solutions_min hw hcons limit
  refine ⟨h, ?_, ?_, ?_, ?_⟩
  · rw [h]
    exact Nat.min_le_right _ _
  · intro h0
    rw [h, h0]
    exact Nat.zero_min limit
  · intro hlt
    rw [h]
    exact Nat.min_eq_left (Nat.le_of_lt hlt)
  · intro hle
    rw [h]
    exact Nat.min_eq_right hle

theorem C7_witness :
    wf9 G2 ∧ consistent G2 ∧ 1 ≤ 2 ∧
    count_solutions G2 2 = min (numSolutions G2) 2 :=
  ⟨by decide, by decide, by decide,
    (C7_count_solutions_contract (by decide) (by decide) (by decide)).1⟩

/-- C8: Scenario B — on the grid with `board[0][0] = 5` and
`board[0][1] = 5` and all other cells empty, `find_conflicts` reports
conflicts, exactly two conflicting cells, the sorted global conflict
list `[(0,0), (0,1)]`, and `row_conflicts = {0: [5]}`. -/
theorem C8_find_conflicts_scenario :
    (find_conflicts B8).has_conflicts = true ∧
    (find_conflicts B8).total_conflicts = 2 ∧
    (find_conflicts B8).conflict_cells = [(0, 0), (0, 1)] ∧
    (find_conflicts B8).row_conflicts = [(0, [5])] := by
  refine ⟨by decide, by decide, by decide, by decide⟩

/-- C10: in `_remove_clues_with_unique_solution` a removal is kept with
no uniqueness verification exactly when `target_clues <= 25`: (i) for
every target at most 25 the whole loop equals the verification-free
loop; (ii) the hard tier's range (25-28, from the spec's difficulty
table) contains 25, so a hard-tier draw of 25 clues runs entirely
unverified — not only expert-tier puzzles; (iii) at target 26 the loops
differ (a removal that breaks uniqueness is restored), so the threshold
is exactly 25. -/
theorem C10_verification_threshold :
    (∀ picks target cellsToRemove fuel b removed attempts, target ≤ 25 →
      sg_remove_loop picks target cellsToRemove fuel b removed attempts =
      sg_remove_loop_noverify picks cellsToRemove fuel b removed attempts) ∧
    (DIFFICULTY_LEVELS.lookup "hard" = some (25, 28) ∧ 25 ≤ 25 ∧ 25 ≤ 28) ∧
    sg_remove_loop pick31 26 1 1 B3 0 0 ≠
      sg_remove_loop_noverify pick31 1 1 B3 0 0 := by
  refine ⟨?_, by decide, by decide⟩
  intro picks target cellsToRemove fuel b removed attempts h25
  exact sg_remove_loop_eq_noverify h25 fuel b removed attempts

/-! ## The box fold of `is_valid_move` -/

/-- The conflicts accumulated by the box loop: the start's conflicts
followed by every box position holding `num`. -/
theorem boxFold_conflicts {b : Board} {num box_num : Nat} :
    ∀ (ps : List (Nat × Nat)) (acc : MoveValidationResult),
      (ps.foldl (fun acc rc =>
        if cell b rc.1 rc.2 = num then
          { is_valid := false,
            errors := acc.errors ++
              [s!"Number {num} already exists in 3x3 box {box_num}"],
            conflicts := acc.conflicts ++ [rc],
            conflict_type := if acc.is_valid then some "box" else acc.conflict_type }
        else acc) acc).conflicts
      = acc.conflicts ++ ps.filter (fun rc => decide (cell b rc.1 rc.2 = num)) := by
  intro ps
  induction ps with
  | nil => intro acc; simp
  | cons rc ps ih =>
    intro acc
    rw [List.foldl_cons]
    by_cases hhit : cell b rc.1 rc.2 = num
    · rw [if_pos hhit, ih, List.filter_cons_of_pos (by simpa using hhit)]
      simp
    · rw [if_neg hhit, ih, List.filter_cons_of_neg (by simpa using hhit)]

/-- The box loop invalidates the result exactly when some box position
holds `num`. -/
theorem boxFold_is_valid {b : Board} {num box_num : Nat} :
    ∀ (ps : List (Nat × Nat)) (acc : MoveValidationResult),
      (ps.foldl (fun acc rc =>
        if cell b rc.1 rc.2 = num then
          { is_valid := false,
            errors := acc.errors ++
              [s!"Number {num} already exists in 3x3 box {box_num}"],
            conflicts := acc.conflicts ++ [rc],
            conflict_type := if acc.is_valid then some "box" else acc.conflict_type }
        else acc) acc).is_valid
      = (acc.is_valid && ps.all (fun rc => ! decide (cell b rc.1 rc.2 = num))) := by
  intro ps
  induction ps with
  | nil => intro acc; simp
  | cons rc ps ih =>
    intro acc
    rw [List.foldl_cons]
    by_cases hhit : cell b rc.1 rc.2 = num
    · rw [if_pos hhit, ih]
      simp [hhit]
    · rw [if_neg hhit, ih]
      simp [hhit]

/-- The box loop writes `conflict_type` only on the first box hit, and
only when the result was still valid on entry. -/
theorem boxFold_conflict_type {b : Board} {num box_num : Nat} :
    ∀ (ps : List (Nat × Nat)) (acc : MoveValidationResult),
      (ps.foldl (fun acc rc =>
        if cell b rc.1 rc.2 = num then
          { is_valid := false,
            errors := acc.errors ++
              [s!"Number {num} already exists in 3x3 box {box_num}"],
            conflicts := acc.conflicts ++ [rc],
            conflict_type := if acc.is_valid then some "box" else acc.conflict_type }
        else acc) acc).conflict_type
      = (if acc.is_valid = true ∧ ∃ rc ∈ ps, cell b rc.1 rc.2 = num
         then some "box" else acc.conflict_type) := by
  intro ps
  induction ps with
  | nil => intro acc; simp
  | cons rc ps ih =>
    intro acc
    rw [List.foldl_cons]
    by_cases hhit : cell b rc.1 rc.2 = num
    · rw [if_pos hhit, ih]
      by_cases hv : acc.is_valid = true
      · simp [hv, hhit]
      · simp [hv]
    · rw [if_neg hhit, ih]
      have hiff : (acc.is_valid = true ∧ ∃ p ∈ ps, cell b p.1 p.2 = num) ↔
          (acc.is_valid = true ∧ ∃ p ∈ rc :: ps, cell b p.1 p.2 = num) := by
        constructor
        · rintro ⟨hv, p, hp, hpe⟩
          exact ⟨hv, p, List.mem_cons_of_mem rc hp, hpe⟩
        · rintro ⟨hv, p, hp, hpe⟩
          rcases List.mem_cons.mp hp with rfl | hp'
          · exact absurd hpe hhit
          · exact ⟨hv, p, hp', hpe⟩
      rw [if_congr hiff rfl rfl]

/-- The box positions hold `num` exactly when `num` is in the box list. -/
theorem boxPairs_hit_iff {b : Board} {row col num : Nat} :
    (∃ rc ∈ boxPairsOf row col, cell b rc.1 rc.2 = num) ↔
      num ∈ boxList b row col := by
  rw [mem_boxList]
  unfold boxPairsOf
  simp only [List.mem_flatMap, List.mem_map, List.mem_range]
  constructor
  · rintro ⟨rc, ⟨i, hi, j, hj, rfl⟩, hnum⟩
    exact ⟨⟨i, hi⟩, ⟨j, hj⟩, hnum⟩
  · rintro ⟨i, j, hnum⟩
    exact ⟨(row / 3 * 3 + i.val, col / 3 * 3 + j.val),
      ⟨i.val, i.isLt, j.val, j.isLt, rfl⟩, hnum⟩

theorem boxCheck_conflicts {b : Board} {row col num : Nat}
    (res : MoveValidationResult) :
    (boxCheck b row col num res).conflicts =
      res.conflicts ++
        (boxPairsOf row col).filter (fun rc => decide (cell b rc.1 rc.2 = num)) := by
  unfold boxCheck
  exact boxFold_conflicts _ _

theorem boxCheck_is_valid {b : Board} {row col num : Nat}
    (res : MoveValidationResult) :
    (boxCheck b row col num res).is_valid =
      (res.is_valid &&
        (boxPairsOf row col).all (fun rc => ! decide (cell b rc.1 rc.2 = num))) := by
  unfold boxCheck
  exact boxFold_is_valid _ _

theorem boxCheck_conflict_type {b : Board} {row col num : Nat}
    (res : MoveValidationResult) :
    (boxCheck b row col num res).conflict_type =
      (if res.is_valid = true ∧ num ∈ boxList b row col
       then some "box" else res.conflict_type) := by
  unfold boxCheck
  rw [boxFold_conflict_type]
  by_cases hv : res.is_valid = true
  · by_cases hbh : num ∈ boxList b row col
    · rw [if_pos ⟨hv, boxPairs_hit_iff.mpr hbh⟩, if_pos ⟨hv, hbh⟩]
    · rw [if_neg (fun hc => hbh (boxPairs_hit_iff.mp hc.2)),
        if_neg (fun hc => hbh hc.2)]
  · rw [if_neg (fun hc => hv hc.1), if_neg (fun hc => hv hc.1)]

/-- Box misses make the box `all` test succeed. -/
theorem box_all_of_not_mem {b : Board} {row col num : Nat}
    (hbh : ¬ num ∈ boxList b row col) :
    (boxPairsOf row col).all (fun rc => ! decide (cell b rc.1 rc.2 = num)) = true := by
  rw [List.all_eq_true]
  intro rc hrc
  rw [Bool.not_eq_true', decide_eq_false_iff_not]
  intro hhit
  exact hbh (boxPairs_hit_iff.mp ⟨rc, hrc, hhit⟩)

/-- A box hit makes the box `all` test fail. -/
theorem box_all_of_mem {b : Board} {row col num : Nat}
    (hbh : num ∈ boxList b row col) :
    (boxPairsOf row col).all (fun rc => ! decide (cell b rc.1 rc.2 = num)) = false := by
  obtain ⟨rc, hrc, hhit⟩ := boxPairs_hit_iff.mpr hbh
  rw [Bool.eq_false_iff]
  intro hall
  rw [List.all_eq_true] at hall
  have := hall rc hrc
  rw [Bool.not_eq_true', decide_eq_false_iff_not] at this
  exact this hhit

/-- C6: for every grid with `row, col` in `[0,8]`, `num` in `[1,9]` and
cell `(row, col)` empty, `is_valid_move` runs all three duplicate checks
regardless of earlier failures: `is_valid` is false iff at least one
check fails (iff the placement is unsafe); `conflict_type` records only
the first check in row-column-box order that found a conflict; and
`conflicts` accumulates every conflicting position found across all
three checks (the first row occurrence, the first column occurrence, and
every matching box cell).  In particular, on the grid with only
`board[0][0] = 5`, `is_valid_move(grid, 0, 1, 5)` yields
`is_valid = false`, `conflict_type = "row"` and `(0,0)` among the
conflicts. -/
theorem C6_is_valid_move_checks {b : Board} {row col num : Nat}
    (hrow : row < 9) (hcol : col < 9) (h1 : 1 ≤ num) (h9 : num ≤ 9)
    (hempty : cell b row col = 0) :
    ((is_valid_move b row col num).is_valid = false ↔ ¬ is_safe b row col num) ∧
    (is_valid_move b row col num).conflict_type =
      (if num ∈ rowList b row then some "row"
       else if num ∈ colList b col then some "column"
       else if num ∈ boxList b row col then some "box"
       else none) ∧
    (is_valid_move b row col num).conflicts =
      ((if num ∈ rowList b row
        then [(row, (rowList b row).findIdx (· == num))] else [])
       ++ (if num ∈ colList b col
           then [((colList b col).findIdx (· == num), col)] else [])
       ++ (boxPairsOf row col).filter (fun rc => decide (cell b rc.1 rc.2 = num))) ∧
    ((is_valid_move B6 0 1 5).is_valid = false ∧
     (is_valid_move B6 0 1 5).conflict_type = some "row" ∧
     (0, 0) ∈ (is_valid_move B6 0 1 5).conflicts) := by
  have hpre : is_valid_move b row col num =
      boxCheck b row col num (colCheck b col num (rowCheck b row num initResult)) := by
    unfold is_valid_move
    rw [if_neg (not_not_intro ⟨hrow, hcol⟩), if_neg (not_not_intro ⟨h1, h9⟩),
      if_neg (not_not_intro hempty)]
  refine ⟨?_, ?_, ?_, by decide, by decide, by decide⟩
  · rw [hpre, boxCheck_is_valid]
    by_cases hrh : num ∈ rowList b row
    · by_cases hch : num ∈ colList b col
      · simp [rowCheck, colCheck, initResult, hrh, hch, not_is_safe_iff]
      · simp [rowCheck, colCheck, initResult, hrh, hch, not_is_safe_iff]
    · by_cases hch : num ∈ colList b col
      · simp [rowCheck, colCheck, initResult, hrh, hch, not_is_safe_iff]
      · by_cases hbh : num ∈ boxList b row col
        · simp [rowCheck, colCheck, initResult, hrh, hch, hbh,
            box_all_of_mem hbh, not_is_safe_iff]
        · simp [rowCheck, colCheck, initResult, hrh, hch, hbh,
            box_all_of_not_mem hbh, not_is_safe_iff]
  · rw [hpre, boxCheck_conflict_type]
    by_cases hrh : num ∈ rowList b row
    · by_cases hch : num ∈ colList b col
      · simp [rowCheck, colCheck, initResult, hrh, hch]
      · simp [rowCheck, colCheck, initResult, hrh, hch]
    · by_cases hch : num ∈ colList b col
      · simp [rowCheck, colCheck, initResult, hrh, hch]
      · by_cases hbh : num ∈ boxList b row col
        · simp [rowCheck, colCheck, initResult, hrh, hch, hbh]
        · simp [rowCheck, colCheck, initResult, hrh, hch, hbh]
  · rw [hpre, boxCheck_conflicts]
    by_cases hrh : num ∈ rowList b row
    · by_cases hch : num ∈ colList b col
      · simp [rowCheck, colCheck, initResult, hrh, hch]
      · simp [rowCheck, colCheck, initResult, hrh, hch]
    · by_cases hch : num ∈ colList b col
      · simp [rowCheck, colCheck, initResult, hrh, hch]
      · simp [rowCheck, colCheck, initResult, hrh, hch]

theorem C6_witness :
    (0 < 9 ∧ 1 < 9 ∧ 1 ≤ 5 ∧ 5 ≤ 9 ∧ cell B6 0 1 = 0) ∧
    ((is_valid_move B6 0 1 5).is_valid = false ↔ ¬ is_safe B6 0 1 5) :=
  ⟨⟨by decide, by decide, by decide, by decide, by decide⟩,
    (C6_is_valid_move_checks (by decide) (by decide) (by decide) (by decide)
      (by decide)).1⟩

end Sudoku
